import Mathlib

/-!
# GoDCCP: synthetic runtime and write pipeline

A shallow embedding of `dccp/synthetic.go` (the virtual-time scheduler and its
sleeper queue) and of `dccp/conninj.go` (the congestion-control binding and the
write loop), followed by the properties established about them.

Conventions of the embedding:

* a Go slice is a `List`; a pointer that may be `nil` is an `Option`;
* an `int64` is an `Int` reduced with `wrapInt64` wherever the source computes
  a value that can leave the 64-bit range;
* a channel used only to signal one goroutine (`resp`) is the natural number
  that identifies it;
* a `panic` is an explicit result, never an exception of the host language;
* `sort.Sort` belongs to the Go library, not to the repository: the functions
  that call it take the sorting function as their first argument `srt`, and the
  library routine itself is modelled by `sortSort`.
-/

namespace dccp

/-! ## Machine integers -/

/-- Two's complement reduction of an integer to the range of Go's `int64`. -/
def wrapInt64 (x : Int) : Int := (x + 2 ^ 63) % 2 ^ 64 - 2 ^ 63

/-- The largest `int64`. -/
def maxInt64 : Int := 2 ^ 63 - 1

/-! ## synthetic.go: request messages and the sleeper queue -/

/-- The `scheduledToSleep` record: the wake time and the channel that is closed
to resume the sleeping goroutine. -/
structure scheduledToSleep where
  wake : Int
  resp : Nat
deriving DecidableEq, Repr

/-- The messages received on `reqch`. The channel carries `interface{}`, so a
value of any other type can arrive as well: that is `unknown`. -/
inductive Request where
  | requestSleep (duration : Int) (resp : Nat)
  | requestNow (resp : Nat)
  | requestGo
  | requestDie
  | unknown
deriving DecidableEq, Repr

/-- The type `sleeperQueue []*scheduledToSleep`. -/
abbrev sleeperQueue := List scheduledToSleep

/-- The method `sleeperQueue.Len`. -/
def sleeperQueue.Len (t : sleeperQueue) : Int := (t.length : Int)

/-- The method `sleeperQueue.Less`: `t[i].wake < t[j].wake`. Both indices are in
range in every call the sort makes; outside the range the answer is `false`. -/
def sleeperQueue.Less (t : sleeperQueue) (i j : Nat) : Bool :=
  match t[i]?, t[j]? with
  | some x, some y => decide (x.wake < y.wake)
  | _, _ => false

/-- The method `sleeperQueue.Swap`: `t[i], t[j] = t[j], t[i]`. -/
def sleeperQueue.Swap (t : sleeperQueue) (i j : Nat) : sleeperQueue :=
  match t[i]?, t[j]? with
  | some x, some y => (t.set i y).set j x
  | _, _ => t

/-- The method `sleeperQueue.Add`: append, then `sort.Sort`. -/
def sleeperQueue.Add (srt : sleeperQueue → sleeperQueue) (t : sleeperQueue)
    (a : scheduledToSleep) : sleeperQueue :=
  srt (t ++ [a])

/-- The method `sleeperQueue.DeleteMin`: the returned pointer (`none` is `nil`)
and the queue left behind. -/
def sleeperQueue.DeleteMin (t : sleeperQueue) : Option scheduledToSleep × sleeperQueue :=
  match t with
  | [] => (none, [])
  | q :: rest => (some q, rest)

/-- What the documentation of `sort.Sort` promises for a `sleeperQueue`: the
elements are rearranged (nothing is added or lost) so that no element is `Less`
than one placed before it. The order of elements with equal wake is not part of
the promise. -/
structure SortContract (srt : sleeperQueue → sleeperQueue) : Prop where
  perm : ∀ t, (srt t).Perm t
  sorted : ∀ t, (srt t).Pairwise (fun a b => a.wake ≤ b.wake)

/-! ## The Go library's `sort.Sort`

`sort.Sort` is not part of the repository and its algorithm has changed between
Go releases. What follows transcribes the routine of the releases the source was
written for (those that still had `os.Error`): `sort.Sort(data)` is
`quickSort(data, 0, data.Len())`, ranges of more than seven elements are split
around a pivot (`doPivot`, after Bentley and McIlroy), shorter ones are finished
by `insertionSort`. The routines reach the data only through `Less` and `Swap`.
Loops are unrolled by a counter that bounds the number of their iterations.

The transcription serves as one sorting function that meets `SortContract`
(`sortSort_contract`) and to run the loop on queues of at most two sleepers,
where every release sorts by plain insertion. The order in which it leaves
sleepers of equal wake time in longer queues is particular to it, and nothing
stated below rests on that order. -/

/-- The inner loop of `insertionSort`:
`for j := i; j > a && data.Less(j, j-1); j-- { data.Swap(j, j-1) }`. -/
def insertionSortInner (a : Nat) : Nat → sleeperQueue → sleeperQueue
  | 0, t => t
  | j + 1, t =>
    if a < j + 1 ∧ sleeperQueue.Less t (j + 1) j = true then
      insertionSortInner a j (sleeperQueue.Swap t (j + 1) j)
    else t

/-- The outer loop of `insertionSort`, `for i := a + 1; i < b; i++`, entered at
`i` with `n` iterations allowed. -/
def insertionSortOuter (a b : Nat) : Nat → Nat → sleeperQueue → sleeperQueue
  | 0, _, t => t
  | n + 1, i, t =>
    if i < b then insertionSortOuter a b n (i + 1) (insertionSortInner a i t) else t

/-- The library routine `insertionSort(data, a, b)`. -/
def insertionSort (t : sleeperQueue) (a b : Nat) : sleeperQueue :=
  insertionSortOuter a b (b - a) (a + 1) t

/-- The library routine `medianOfThree(data, a, b, c)`: a bubble sort of the
three positions `m0 = b`, `m1 = a`, `m2 = c` that leaves the median at `a`. -/
def medianOfThree (t : sleeperQueue) (a b c : Nat) : sleeperQueue :=
  let m0 := b
  let m1 := a
  let m2 := c
  let t1 := if sleeperQueue.Less t m1 m0 then sleeperQueue.Swap t m1 m0 else t
  let t2 := if sleeperQueue.Less t1 m2 m1 then sleeperQueue.Swap t1 m2 m1 else t1
  if sleeperQueue.Less t2 m1 m0 then sleeperQueue.Swap t2 m1 m0 else t2

/-- The library routine `swapRange(data, a, b, n)`. -/
def swapRange (t : sleeperQueue) (a b : Nat) : Nat → sleeperQueue
  | 0 => t
  | n + 1 => sleeperQueue.Swap (swapRange t a b n) (a + n) (b + n)

/-- The variables of the partition loop of `doPivot`. -/
structure PivotState where
  data : sleeperQueue
  a : Nat
  b : Nat
  c : Nat
  d : Nat
deriving DecidableEq, Repr

/-- The partition loop of `doPivot`, `for b < c`, with the pivot at `pivot` and
`n` iterations allowed. -/
def doPivotLoop (pivot : Nat) : Nat → PivotState → PivotState
  | 0, p => p
  | n + 1, p =>
    if p.b < p.c then
      if sleeperQueue.Less p.data p.b pivot then
        doPivotLoop pivot n { p with b := p.b + 1 }
      else if !sleeperQueue.Less p.data pivot p.b then
        doPivotLoop pivot n
          { p with data := sleeperQueue.Swap p.data p.a p.b, a := p.a + 1, b := p.b + 1 }
      else if sleeperQueue.Less p.data pivot (p.c - 1) then
        doPivotLoop pivot n { p with c := p.c - 1 }
      else if !sleeperQueue.Less p.data (p.c - 1) pivot then
        doPivotLoop pivot n
          { p with data := sleeperQueue.Swap p.data (p.c - 1) (p.d - 1),
                   c := p.c - 1, d := p.d - 1 }
      else
        doPivotLoop pivot n
          { p with data := sleeperQueue.Swap p.data p.b (p.c - 1), b := p.b + 1, c := p.c - 1 }
    else p

/-- The library routine `doPivot(data, lo, hi)`: the data and the bounds
`midlo`, `midhi` of the block equal to the pivot. -/
def doPivot (t : sleeperQueue) (lo hi : Nat) : sleeperQueue × Nat × Nat :=
  let m := lo + (hi - lo) / 2
  let t0 :=
    if hi - lo > 40 then
      let s := (hi - lo) / 8
      let u1 := medianOfThree t lo (lo + s) (lo + 2 * s)
      let u2 := medianOfThree u1 m (m - s) (m + s)
      medianOfThree u2 (hi - 1) (hi - 1 - s) (hi - 1 - 2 * s)
    else t
  let t1 := medianOfThree t0 lo m (hi - 1)
  let p := doPivotLoop lo (hi - lo)
    { data := t1, a := lo + 1, b := lo + 1, c := hi, d := hi }
  let n1 := min (p.b - p.a) (p.a - lo)
  let t2 := swapRange p.data lo (p.b - n1) n1
  let n2 := min (hi - p.d) (p.d - p.c)
  let t3 := swapRange t2 p.c (hi - n2) n2
  (t3, lo + p.b - p.a, hi - (p.d - p.c))

/-- The library routine `quickSort(data, a, b)`, with `n` nested splits allowed:
the loop `for b-a > 7` sorts the smaller side by a recursive call and goes on
with the other one; a range of at most seven elements goes to `insertionSort`. -/
def quickSort : Nat → sleeperQueue → Nat → Nat → sleeperQueue
  | 0, t, _, _ => t
  | n + 1, t, a, b =>
    if b - a > 7 then
      let r := doPivot t a b
      let mlo := r.2.1
      let mhi := r.2.2
      if mlo - a < b - mhi then quickSort n (quickSort n r.1 a mlo) mhi b
      else quickSort n (quickSort n r.1 mhi b) a mlo
    else if b - a > 1 then insertionSort t a b
    else t

/-- The library routine `sort.Sort` on a `sleeperQueue`. -/
def sortSort (t : sleeperQueue) : sleeperQueue :=
  quickSort (t.length + 1) t 0 t.length

/-! ## synthetic.go: the scheduler loop -/

/-- The local variables of `SyntheticRuntime.loop`. `now` is an `int64`. The
counter `ntogo` is a Go `int` that moves by one per request: it cannot come near
the ends of its range in a run that can be carried out, and is kept as a
mathematical integer. -/
structure LoopState where
  sleepers : sleeperQueue
  now : Int
  ntogo : Int
  goroutinesForked : Bool
deriving DecidableEq, Repr

/-- The state in which `loop` starts. -/
def LoopState.init : LoopState :=
  { sleepers := [], now := 0, ntogo := 0, goroutinesForked := false }

/-- What the loop does to the goroutines it serves. -/
inductive Action where
  | reply (resp : Nat) (now : Int)
  | wake (resp : Nat)
deriving DecidableEq, Repr

/-- How one pass through the body of the `for` loop ends. -/
inductive Status where
  | running (s : LoopState)
  | done (s : LoopState)
  | panic (msg : String)
deriving DecidableEq, Repr

/-- The `switch` on the type of the request (lines 64 to 86). -/
def loopSwitch (srt : sleeperQueue → sleeperQueue) (s : LoopState) (req : Request) :
    Except String (LoopState × List Action) :=
  match req with
  | .requestSleep duration resp =>
    if s.ntogo < 1 ∨ duration < 0 then
      .error "sleeping outside runtime or for negative time"
    else
      .ok ({ s with sleepers := sleeperQueue.Add srt s.sleepers
                      { wake := wrapInt64 (s.now + duration), resp := resp } }, [])
  | .requestNow resp => .ok (s, [Action.reply resp s.now])
  | .requestGo => .ok ({ s with ntogo := s.ntogo + 1, goroutinesForked := true }, [])
  | .requestDie =>
    if s.ntogo < 1 then .error "die before birth"
    else .ok ({ s with ntogo := s.ntogo - 1 }, [])
  | .unknown => .error "unknown"

/-- The rest of the body (lines 88 to 105): the test for goroutines that have
not blocked, the pop, the exit and the clock advance. -/
def loopWake (s : LoopState) : List Action × Status :=
  if !s.goroutinesForked || decide (sleeperQueue.Len s.sleepers < s.ntogo) then
    ([], .running s)
  else
    match sleeperQueue.DeleteMin s.sleepers with
    | (none, rest) => ([], .done { s with sleepers := rest })
    | (some nextToWake, rest) =>
      if nextToWake.wake < s.now then ([], .panic "waking in the past")
      else ([Action.wake nextToWake.resp],
            .running { s with sleepers := rest, now := nextToWake.wake })

/-- One pass through the body of the `for` loop for the request `req`. -/
def loopBody (srt : sleeperQueue → sleeperQueue) (s : LoopState) (req : Request) :
    List Action × Status :=
  match loopSwitch srt s req with
  | .error msg => ([], .panic msg)
  | .ok (s1, acts) =>
    let r := loopWake s1
    (acts ++ r.1, r.2)

/-- The loop from state `s` over the requests that arrive, in order. It stops at
the first `break` or `panic`; when the requests run out it is blocked on
`<-x.reqch`, which is `running`. -/
def loopFrom (srt : sleeperQueue → sleeperQueue) : LoopState → List Request → List Action × Status
  | s, [] => ([], .running s)
  | s, req :: rest =>
    match loopBody srt s req with
    | (acts, .running s1) =>
      let r := loopFrom srt s1 rest
      (acts ++ r.1, r.2)
    | (acts, st) => (acts, st)

/-- The method `SyntheticRuntime.loop`, from its initial state. -/
def SyntheticRuntime.loop (srt : sleeperQueue → sleeperQueue) (reqs : List Request) :
    List Action × Status :=
  loopFrom srt LoopState.init reqs


/-! ## Invariants of the scheduler loop -/

/-- The relation between the queue and the live count at the head of the loop:
before the first `requestGo` nothing has happened; after it, at least one live
goroutine is not asleep. -/
def LoopInv (s : LoopState) : Prop :=
  0 ≤ s.ntogo ∧
  (s.goroutinesForked = true → (s.sleepers.length : Int) < s.ntogo) ∧
  (s.goroutinesForked = false → s.sleepers = [] ∧ s.ntogo = 0)

/-- The same relation right after the `switch`: the request may have put the
last running goroutine to sleep or removed it. -/
def MidInv (s : LoopState) : Prop :=
  0 ≤ s.ntogo ∧
  (s.goroutinesForked = true → (s.sleepers.length : Int) ≤ s.ntogo) ∧
  (s.goroutinesForked = false → s.sleepers = [] ∧ s.ntogo = 0)

/-! ## Notions used to state what `sort.Sort` does -/

/-- The wake time found at position `i` of the queue (0 past its end). -/
def wakeAt (t : sleeperQueue) (i : Nat) : Int :=
  match t[i]? with
  | some x => x.wake
  | none => 0

/-- The queue `u` comes from `t` by rearranging the positions `lo ≤ k < hi`
only: same length, the other positions untouched, every property shared by the
elements of the range still shared by them, and the same elements overall. -/
structure Within (lo hi : Nat) (t u : sleeperQueue) : Prop where
  length : u.length = t.length
  frame : ∀ k, k < lo ∨ hi ≤ k → u[k]? = t[k]?
  closed : ∀ P : Int → Prop, (∀ k, lo ≤ k → k < hi → P (wakeAt t k)) →
    ∀ k, lo ≤ k → k < hi → P (wakeAt u k)
  perm : u.Perm t

/-- The positions `a ≤ k < b` of the queue are in ascending order of wake. -/
def SortedRange (t : sleeperQueue) (a b : Nat) : Prop :=
  ∀ i j, a ≤ i → i < j → j < b → wakeAt t i ≤ wakeAt t j

/-- The regions kept by the partition loop of `doPivot` around the pivot value
`v`: equal, smaller, not yet examined, larger, equal. -/
structure PivotInv (lo hi : Nat) (v : Int) (p : PivotState) : Prop where
  ha : lo < p.a
  hab : p.a ≤ p.b
  hbc : p.b ≤ p.c
  hcd : p.c ≤ p.d
  hd : p.d ≤ hi
  hlen : hi ≤ p.data.length
  eqL : ∀ k, lo ≤ k → k < p.a → wakeAt p.data k = v
  lt : ∀ k, p.a ≤ k → k < p.b → wakeAt p.data k < v
  gt : ∀ k, p.c ≤ k → k < p.d → v < wakeAt p.data k
  eqR : ∀ k, p.d ≤ k → k < hi → wakeAt p.data k = v

/-! ## Sequences of queue operations -/

/-- One call on a `sleeperQueue`. -/
inductive QueueOp where
  | add (a : scheduledToSleep)
  | deleteMin
deriving DecidableEq, Repr

/-- The queue after one call. -/
def queueStep (srt : sleeperQueue → sleeperQueue) (t : sleeperQueue) : QueueOp → sleeperQueue
  | .add a => sleeperQueue.Add srt t a
  | .deleteMin => (sleeperQueue.DeleteMin t).2

/-- The queue after a sequence of calls, starting from `t`. -/
def queueRun (srt : sleeperQueue → sleeperQueue) : sleeperQueue → List QueueOp → sleeperQueue
  | t, [] => t
  | t, op :: ops => queueRun srt (queueStep srt t op) ops

/-- The sleepers handed out by the `DeleteMin` calls of a sequence, in the order
of the calls (a `nil` result hands out nothing). -/
def queueReturned (srt : sleeperQueue → sleeperQueue) :
    sleeperQueue → List QueueOp → List scheduledToSleep
  | _, [] => []
  | t, .add a :: ops => queueReturned srt (sleeperQueue.Add srt t a) ops
  | t, .deleteMin :: ops =>
    match sleeperQueue.DeleteMin t with
    | (some q, rest) => q :: queueReturned srt rest ops
    | (none, rest) => queueReturned srt rest ops

/-- The sleepers passed to the `Add` calls of a sequence, in the order of the
calls. -/
def queueAdded : List QueueOp → List scheduledToSleep
  | [] => []
  | .add a :: ops => a :: queueAdded ops
  | .deleteMin :: ops => queueAdded ops

/-- Sleepers of equal wake time leave the queue in the order they entered it:
for every wake time, the sleepers with that wake time handed out by `DeleteMin`
are, in the order handed out, an initial part of those passed to `Add`. -/
def FifoOrder (srt : sleeperQueue → sleeperQueue) (ops : List QueueOp) : Prop :=
  ∀ w : Int, (queueReturned srt [] ops).filter (fun x => decide (x.wake = w)) <+:
    (queueAdded ops).filter (fun x => decide (x.wake = w))

/-- The sort keeps sleepers of equal wake time in the order it found them. The
documentation of `sort.Sort` does not promise this ("The sort is not guaranteed
to be stable"). -/
def SortStable (srt : sleeperQueue → sleeperQueue) : Prop :=
  ∀ (t : sleeperQueue) (w : Int),
    (srt t).filter (fun x => decide (x.wake = w)) = t.filter (fun x => decide (x.wake = w))

/-- A sort that meets `SortContract` and is stable: insertion into an ordered
list. -/
def stableSort (t : sleeperQueue) : sleeperQueue :=
  t.insertionSort (fun a b => a.wake ≤ b.wake)

/-- A sort that meets `SortContract` and is not stable: the queue is turned
around before it is sorted, so sleepers of equal wake time come out in the
opposite order. -/
def reversingSort (t : sleeperQueue) : sleeperQueue :=
  stableSort t.reverse

/-- The times sent in answer to `requestNow`, in the order they were sent. -/
def nowReplies : List Action → List Int
  | [] => []
  | .reply _ now :: acts => now :: nowReplies acts
  | .wake _ :: acts => nowReplies acts

/-! ## synthetic.go: goroutines inside the runtime

`SyntheticRuntime.Go` sends `requestGo` and then starts the goroutine, which
sends `requestDie` when its function returns; `SyntheticRuntime.Sleep` sends
`requestSleep` and blocks until the loop closes `resp`. A program is followed
together with the loop: a goroutine sends its next request only when its own
program order allows it. -/

/-- The goroutines of the program "the root spawns two goroutines and returns;
each of them sleeps for one second and returns". -/
inductive Task where
  | root
  | first
  | second
deriving DecidableEq, Repr

/-- The channel on which a goroutine of the program waits in `Sleep`. -/
def Task.resp : Task → Nat
  | .root => 0
  | .first => 1
  | .second => 2

/-- The loop, the requests it has received and what it has done, together with
the number of requests each goroutine has sent. -/
structure Scenario where
  reqs : List Request
  acts : List Action
  status : Status
  rootSent : Nat
  firstSent : Nat
  secondSent : Nat
deriving DecidableEq, Repr

/-- The requests a spawned goroutine sends: `Sleep(1e9)` once it has been
started, then (from the wrapper in `Go`) `requestDie`, once its sleep is over,
that is once the loop has closed its `resp`. -/
def sleeperNext (started : Bool) (sent : Nat) (k : Task) (acts : List Action) :
    Option Request :=
  if !started then none
  else if sent = 0 then some (.requestSleep 1000000000 k.resp)
  else if sent = 1 ∧ Action.wake k.resp ∈ acts then some .requestDie
  else none

/-- The request goroutine `k` sends next, if it can send one now. The root
calls `Go` twice (each call sends `requestGo` before the new goroutine runs) and
returns, upon which the wrapper in `Go` sends its `requestDie`. -/
def scenarioNext (c : Scenario) (k : Task) : Option Request :=
  match k with
  | .root =>
    if c.rootSent = 0 then some .requestGo
    else if c.rootSent = 1 then some .requestGo
    else if c.rootSent = 2 then some .requestDie
    else none
  | .first => sleeperNext (decide (1 ≤ c.rootSent)) c.firstSent .first c.acts
  | .second => sleeperNext (decide (2 ≤ c.rootSent)) c.secondSent .second c.acts

/-- Goroutine `k` sends its next request and the loop handles it. There is no
such step when `k` has nothing to send or the loop no longer receives. -/
def scenarioStep (c : Scenario) (k : Task) : Option Scenario :=
  match c.status, scenarioNext c k with
  | .running s, some req =>
    let r := loopBody sortSort s req
    some { reqs := c.reqs ++ [req], acts := c.acts ++ r.1, status := r.2,
           rootSent := if k = .root then c.rootSent + 1 else c.rootSent,
           firstSent := if k = .first then c.firstSent + 1 else c.firstSent,
           secondSent := if k = .second then c.secondSent + 1 else c.secondSent }
  | _, _ => none

/-- The steps of a schedule, one goroutine after the other; `none` when some
goroutine is scheduled at a point where it cannot send. -/
def scenarioRun : Scenario → List Task → Option Scenario
  | c, [] => some c
  | c, k :: sched =>
    match scenarioStep c k with
    | some c1 => scenarioRun c1 sched
    | none => none

/-- `GoSynthetic(g)`: the `requestGo` for the root goroutine is sent before the
loop starts, no goroutine of the program has sent anything yet. -/
def scenarioInit : Scenario :=
  { reqs := [.requestGo],
    acts := (SyntheticRuntime.loop sortSort [.requestGo]).1,
    status := (SyntheticRuntime.loop sortSort [.requestGo]).2,
    rootSent := 0, firstSent := 0, secondSent := 0 }

/-- The expected end of the scenario: the loop has left its `for` (so `donech`
is closed and `Join` returns) with the clock at one second and no sleeper left,
this is the result of `SyntheticRuntime.loop` on the requests received, and every
goroutine has sent all its requests. -/
def scenarioGood (c : Scenario) : Bool :=
  match c.status with
  | .done s =>
    decide (s.now = 1000000000) && decide (s.sleepers = []) &&
      decide (SyntheticRuntime.loop sortSort c.reqs = (c.acts, .done s)) &&
      decide (c.rootSent = 3 ∧ c.firstSent = 2 ∧ c.secondSent = 2)
  | _ => false

/-- Exhaustive search: every way of continuing from `c` for at most `n` steps
reaches, when no goroutine can send any more, a state that is `scenarioGood`. -/
def scenarioCheck : Nat → Scenario → Bool
  | 0, _ => false
  | n + 1, c =>
    match [Task.root, Task.first, Task.second].filterMap (scenarioStep c) with
    | [] => scenarioGood c
    | nexts => nexts.all (scenarioCheck n)

/-! ## conninj.go: the congestion-control binding

The types `Header` and `Option`, the two congestion-control objects behind
`c.scc` and `c.rcc` and the two validation helpers are declared in files of the
package that are not part of the sources at hand. -/

/-- The direction in which an option may travel. -/
inductive Direction where
  | senderToReceiver
  | receiverToSender
deriving DecidableEq, Repr

/-- Modelled from the spec: the type `Option`, whose declaration is absent from
the sources ("a tag plus opaque payload"). Lean's own `Option` keeps its name,
so the Go type is `DccpOption` here. -/
structure DccpOption where
  Type' : Nat
  Data : List Nat
deriving DecidableEq, Repr

/-- Modelled from the spec: the type `Header`, whose declaration is absent from
the sources ("type, extended-sequence flag X, sequence number, acknowledgement
number, CCVal, ordered sequence of Options, and an optional payload"). -/
structure Header where
  Type' : Nat
  X : Bool
  SeqNo : Int
  AckNo : Int
  CCVal : Nat
  Options : List DccpOption
  Data : List Nat
deriving DecidableEq, Repr

/-- The calls `Conn` makes on its collaborators, in the order it makes them. -/
inductive Call where
  | sccOnWrite (htype : Nat) (x : Bool) (seqno : Int)
  | rccOnWrite (htype : Nat) (x : Bool) (seqno : Int)
  | sccStrobe
  | hcWriteHeader (h : Header)
  | abortQuietly
deriving DecidableEq, Repr

/-- The two congestion-control objects of a connection, each a state (`σ` for
the sender, `ρ` for the receiver) with the method `OnWrite` that `writeCCID`
calls: the sender's returns `(ccval, options)`, the receiver's `options`. -/
structure CongestionControls (σ ρ : Type) where
  sccOnWrite : σ → Nat → Bool → Int → (Nat × List DccpOption) × σ
  rccOnWrite : ρ → Nat → Bool → Int → List DccpOption × ρ

/-- The part of `Conn` that `writeCCID` touches: the states of `c.scc` and
`c.rcc` and the record of the calls made. -/
structure Conn (σ ρ : Type) where
  scc : σ
  rcc : ρ
  calls : List Call

/-- The method `Conn.writeCCID`. The helpers `validateCCIDSenderToReceiver` and
`validateCCIDReceiverToSender` are the arguments `validS` and `validR`; the
result is the connection and the header after the call, or the message of the
panic. -/
def Conn.writeCCID {σ ρ : Type} (cc : CongestionControls σ ρ)
    (validS validR : List DccpOption → Bool) (c : Conn σ ρ) (h : Header) :
    Except String (Conn σ ρ × Header) :=
  -- HC-Sender CCID
  let r1 := cc.sccOnWrite c.scc h.Type' h.X h.SeqNo
  let ccval := r1.1.1
  let sropts := r1.1.2
  let c1 : Conn σ ρ :=
    { c with scc := r1.2, calls := c.calls ++ [Call.sccOnWrite h.Type' h.X h.SeqNo] }
  if !validS sropts then
    .error "sender congestion control writes disallowed options"
  else
    let h1 : Header := { h with CCVal := ccval }
    -- HC-Receiver CCID
    let r2 := cc.rccOnWrite c1.rcc h1.Type' h1.X h1.SeqNo
    let rsopts := r2.1
    let c2 : Conn σ ρ :=
      { c1 with rcc := r2.2, calls := c1.calls ++ [Call.rccOnWrite h1.Type' h1.X h1.SeqNo] }
    if !validR rsopts then
      .error "receiver congestion control writes disallowed options"
    else
      .ok (c2, { h1 with Options := h1.Options ++ (sropts ++ rsopts) })

/-- Modelled from the spec: the helper `validateCCIDSenderToReceiver`, which is
called by `writeCCID` and absent from the sources ("Sender CCID must produce
only sender-to-receiver-classified options"). The classification of the option
types is the argument `dir`. -/
def validateCCIDSenderToReceiver (dir : DccpOption → Direction)
    (opts : List DccpOption) : Bool :=
  opts.all (fun o => decide (dir o = .senderToReceiver))

/-- Modelled from the spec: the helper `validateCCIDReceiverToSender`, which is
called by `writeCCID` and absent from the sources ("Receiver CCID must produce
only receiver-to-sender-classified options"). -/
def validateCCIDReceiverToSender (dir : DccpOption → Direction)
    (opts : List DccpOption) : Bool :=
  opts.all (fun o => decide (dir o = .receiverToSender))

/-- A sample classification of option types: types below 192 travel from the
sender to the receiver, the others from the receiver to the sender. -/
def sampleDir (o : DccpOption) : Direction :=
  if o.Type' < 192 then .senderToReceiver else .receiverToSender

/-- A sample pair of congestion-control objects. The sender counts its calls,
reports the count modulo 16 as `ccval` and writes one option of type 128; the
receiver writes one option of type 194 that carries the sequence number's
parity. -/
def sampleControls : CongestionControls Nat Unit where
  sccOnWrite := fun n _ _ _ => ((n % 16, [{ Type' := 128, Data := [n] }]), n + 1)
  rccOnWrite := fun u _ _ seqno => ([{ Type' := 194, Data := [seqno.natAbs % 2] }], u)

/-- A sample header: type 2, sequence number 77, one option already present. -/
def sampleHeader : Header :=
  { Type' := 2, X := true, SeqNo := 77, AckNo := 40, CCVal := 0,
    Options := [{ Type' := 1, Data := [] }], Data := [] }

/-! ## conninj.go: the `select` of the open phase of `writeLoop` -/

/-- A channel as a receiver sees it: the values waiting to be received, oldest
first, and whether the channel has been closed. -/
structure Chan (α : Type) where
  buf : List α
  closed : Bool
deriving DecidableEq, Repr

/-- A receive can proceed when a value is waiting or the channel is closed. -/
def Chan.ready {α : Type} (ch : Chan α) : Bool :=
  !ch.buf.isEmpty || ch.closed

/-- The receive `v, ok := <-ch` when it can proceed: the value (`none` is the
zero value that a closed and drained channel yields), `ok`, and the channel
afterwards. -/
def Chan.recv {α : Type} (ch : Chan α) : Option (Option α × Bool × Chan α) :=
  match ch.buf with
  | v :: rest => some (some v, true, { ch with buf := rest })
  | [] => if ch.closed then some (none, false, ch) else none

/-- The `select` statement of Go over receive cases, given for each case whether
it can proceed: no case is chosen while none can proceed (the statement blocks);
otherwise one of those that can proceed is chosen, by a pseudo-random draw of the
run-time system that does not look at the order of the cases. The draw is
`pick`; the result is the position of the chosen case. -/
def goSelect (ready : List Bool) (pick : Nat) : Option Nat :=
  let able := (List.range ready.length).filter (fun i => ready.getD i false)
  able[pick % able.length]?

/-- What the `select` of `Loop_II` (lines 106 to 132) received. A header
pointer is an `Option Header`, `none` being `nil`. -/
inductive Selected where
  | nonData (h : Option Header) (ok : Bool)
  | appData (data : List Nat) (ok : Bool)
deriving DecidableEq, Repr

/-- The `select` of `Loop_II`: case 0 receives from `writeNonData`, case 1 from
`writeData`. The result is what was received and the two channels afterwards;
`none` when the statement blocks. -/
def loopIISelect (pick : Nat) (writeNonData : Chan (Option Header))
    (writeData : Chan (List Nat)) :
    Option (Selected × Chan (Option Header) × Chan (List Nat)) :=
  match goSelect [writeNonData.ready, writeData.ready] pick with
  | some 0 =>
    match writeNonData.recv with
    | some (h, ok, ch) => some (.nonData (h.getD none) ok, ch, writeData)
    | none => none
  | some _ =>
    match writeData.recv with
    | some (d, ok, ch) => some (.appData (d.getD []) ok, writeNonData, ch)
    | none => none
  | none => none

/-- A sample table of which option may ride on which packet type, after the
option tables of the protocol: the feedback options 192 to 194 are not legal on
a packet of type 2 (Data); everything else is allowed. Nothing in `conninj.go`
consults such a table. -/
def sampleLegalOn (htype : Nat) (o : DccpOption) : Bool :=
  !(decide (htype = 2) && decide (192 ≤ o.Type') && decide (o.Type' ≤ 194))

/-! ## conninj.go: `inject`

`inject` runs under `writeNonDataLk`. It looks at `c.writeNonData` as a bounded
queue: whether the channel is `nil`, how many headers wait in its buffer and how
many the buffer can hold. The channel is closed by code outside the sources. -/

/-- The channel `c.writeNonData` as `inject` sees it: the headers waiting in the
buffer, oldest first (`none` is a `nil` header), and the capacity. -/
structure NonDataQueue where
  buf : List (Option Header)
  cap : Nat
deriving DecidableEq, Repr

/-- The part of `Conn` that `inject` touches: what `writeCCID` touches and the
field `writeNonData`, `none` when the field is `nil`. -/
structure InjectConn (σ ρ : Type) where
  conn : Conn σ ρ
  writeNonData : Option NonDataQueue

/-- The method `Conn.inject`. The result is the connection afterwards together
with the header the caller's pointer `h` refers to afterwards (`writeCCID`
writes into that header), or the message of a panic. The branch that drops only
logs. -/
def Conn.inject {σ ρ : Type} (cc : CongestionControls σ ρ)
    (validS validR : List DccpOption → Bool) (c : InjectConn σ ρ) (h : Option Header) :
    Except String (InjectConn σ ρ × Option Header) :=
  match c.writeNonData with
  | none => .ok (c, h)
  | some q =>
    -- Dropping a nil is OK, since it happens only if there are other packets in the queue
    if q.buf.length < q.cap then
      match h with
      | some hdr =>
        match Conn.writeCCID cc validS validR c.conn hdr with
        | .error msg => .error msg
        | .ok (c2, h2) =>
          .ok ({ conn := c2, writeNonData := some { q with buf := q.buf ++ [some h2] } },
               some h2)
      | none =>
        .ok ({ c with writeNonData := some { q with buf := q.buf ++ [none] } }, none)
    else
      .ok (c, h)

/-! ## conninj.go: `write` and `writeLoop`

One pass through the body of one of the three loops of `writeLoop` is followed
at a time. What the rest of the program does in between (sending on the two
channels, closing them, changing the socket state, the transport accepting or
refusing a header) reaches a pass through the channels it finds and through its
`PassEnv`. -/

/-- Modelled from the spec: the states of the socket, whose declaration is
absent from the sources ("states include CLOSED, LISTEN, REQUEST, RESPOND, OPEN,
PARTOPEN, CLOSEREQ, TIMEWAIT"). -/
inductive SocketState where
  | CLOSED
  | LISTEN
  | REQUEST
  | RESPOND
  | OPEN
  | PARTOPEN
  | CLOSEREQ
  | TIMEWAIT
deriving DecidableEq, Repr

/-- The labels of `writeLoop`: where the next pass starts. -/
inductive Label where
  | Loop_I
  | Loop_II
  | Loop_III
  | Exit
deriving DecidableEq, Repr

/-- The position of a label in the text of `writeLoop`. -/
def Label.rank : Label → Nat
  | .Loop_I => 0
  | .Loop_II => 1
  | .Loop_III => 2
  | .Exit => 3

/-- What one pass gets from outside: the draw of the `select`, the header that
`c.generateDataAck` builds for a payload, whether `c.hc.WriteHeader` returns an
error, and the state that `c.socket.GetState()` returns. -/
structure PassEnv where
  pick : Nat
  generateDataAck : List Nat → Header
  writeErr : Bool
  state : SocketState

/-- The method `Conn.write`: `c.scc.Strobe()`, then `c.hc.WriteHeader(h)`, whose
error (`true` when not `nil`) is returned. `strobe` is the effect of `Strobe` on
the sender's congestion control. -/
def Conn.write {σ ρ : Type} (strobe : σ → σ) (c : Conn σ ρ) (h : Header) (err : Bool) :
    Conn σ ρ × Bool :=
  ({ c with scc := strobe c.scc, calls := c.calls ++ [Call.sccStrobe, Call.hcWriteHeader h] },
   err)

/-- The call `c.abortQuietly()`. -/
def Conn.abortQuietly {σ ρ : Type} (c : Conn σ ρ) : Conn σ ρ :=
  { c with calls := c.calls ++ [Call.abortQuietly] }

/-- The statement that ends the body of each of the three loops:
`if h != nil { err := c.write(h); if err != nil { c.abortQuietly(); goto Exit } }`.
The result is the connection and whether the `goto Exit` is taken. -/
def writeOrAbort {σ ρ : Type} (strobe : σ → σ) (c : Conn σ ρ) (h : Option Header)
    (err : Bool) : Conn σ ρ × Bool :=
  match h with
  | none => (c, false)
  | some hdr =>
    let r := Conn.write strobe c hdr err
    if r.2 then (Conn.abortQuietly r.1, true) else (r.1, false)

/-- The goroutine that runs `writeLoop`: the label it is at, the connection and
the two channels. -/
structure WriteLoopState (σ ρ : Type) where
  label : Label
  conn : Conn σ ρ
  writeNonData : Chan (Option Header)
  writeData : Chan (List Nat)

/-- How one pass ends: it waits for a channel, the function has returned already,
the next pass starts from a new state, or the process panics. -/
inductive PassResult (σ ρ : Type) where
  | blocked
  | finished
  | next (s : WriteLoopState σ ρ)
  | panic (msg : String)

/-- One pass through the body of the loop that `writeLoop` is in. -/
def writeLoopPass {σ ρ : Type} (cc : CongestionControls σ ρ)
    (validS validR : List DccpOption → Bool) (strobe : σ → σ)
    (s : WriteLoopState σ ρ) (env : PassEnv) : PassResult σ ρ :=
  match s.label with
  | .Loop_I =>
    match s.writeNonData.recv with
    | none => .blocked
    | some (h, ok, ch) =>
      if !ok then
        .next { s with writeNonData := ch, label := .Exit }
      else
        let r := writeOrAbort strobe s.conn (h.getD none) env.writeErr
        if r.2 then
          .next { s with conn := r.1, writeNonData := ch, label := .Exit }
        else
          match env.state with
          | .OPEN => .next { s with conn := r.1, writeNonData := ch, label := .Loop_II }
          | .PARTOPEN => .next { s with conn := r.1, writeNonData := ch, label := .Loop_II }
          | _ => .next { s with conn := r.1, writeNonData := ch, label := .Loop_I }
  | .Loop_II =>
    match loopIISelect env.pick s.writeNonData s.writeData with
    | none => .blocked
    | some (.nonData h ok, nd, d) =>
      if !ok then
        .next { s with writeNonData := nd, writeData := d, label := .Exit }
      else
        let r := writeOrAbort strobe s.conn h env.writeErr
        .next { s with conn := r.1, writeNonData := nd, writeData := d,
                       label := if r.2 then .Exit else .Loop_II }
    | some (.appData data ok, nd, d) =>
      if !ok then
        .next { s with writeNonData := nd, writeData := d, label := .Loop_III }
      else
        match Conn.writeCCID cc validS validR s.conn (env.generateDataAck data) with
        | .error msg => .panic msg
        | .ok (c2, h2) =>
          let r := writeOrAbort strobe c2 (some h2) env.writeErr
          .next { s with conn := r.1, writeNonData := nd, writeData := d,
                         label := if r.2 then .Exit else .Loop_II }
  | .Loop_III =>
    match s.writeNonData.recv with
    | none => .blocked
    | some (h, ok, ch) =>
      if !ok then
        .next { s with writeNonData := ch, label := .Exit }
      else
        let r := writeOrAbort strobe s.conn (h.getD none) env.writeErr
        .next { s with conn := r.1, writeNonData := ch,
                       label := if r.2 then .Exit else .Loop_III }
  | .Exit => .finished

/-- What other goroutines do to the two channels between two passes: the values
they send and whether they close the channel. -/
structure Arrival where
  nonData : List (Option Header)
  closeNonData : Bool
  data : List (List Nat)
  closeData : Bool

/-- The channels after the sends and closes of `a`. -/
def WriteLoopState.arrive {σ ρ : Type} (s : WriteLoopState σ ρ) (a : Arrival) :
    WriteLoopState σ ρ :=
  { s with
    writeNonData := { buf := s.writeNonData.buf ++ a.nonData,
                      closed := s.writeNonData.closed || a.closeNonData },
    writeData := { buf := s.writeData.buf ++ a.data,
                   closed := s.writeData.closed || a.closeData } }

/-- The labels `writeLoop` is at after each of a series of passes, every pass
preceded by what arrived on the channels in the meantime. A pass that waits
leaves the label where it is; nothing follows the return of the function or a
panic. -/
def writeLoopLabels {σ ρ : Type} (cc : CongestionControls σ ρ)
    (validS validR : List DccpOption → Bool) (strobe : σ → σ) :
    WriteLoopState σ ρ → List (Arrival × PassEnv) → List Label
  | _, [] => []
  | s, (a, env) :: rest =>
    match writeLoopPass cc validS validR strobe (s.arrive a) env with
    | .next s2 => s2.label :: writeLoopLabels cc validS validR strobe s2 rest
    | .blocked => s.label :: writeLoopLabels cc validS validR strobe (s.arrive a) rest
    | .finished => []
    | .panic _ => []

/-- A step forward in the text of `writeLoop` that does not jump from the first
loop to the third. -/
def Label.Forward (p q : Label) : Prop :=
  p.rank ≤ q.rank ∧ ¬ (p = .Loop_I ∧ q = .Loop_III)

/-- A sample goroutine in its third loop with one header waiting on
`writeNonData`, and congestion controls whose `Strobe` changes nothing. -/
def sampleClosing : WriteLoopState Nat Unit :=
  { label := .Loop_III, conn := { scc := 0, rcc := (), calls := [] },
    writeNonData := { buf := [some sampleHeader], closed := false },
    writeData := { buf := [], closed := true } }

/-- A sample pass in which the transport refuses the header. -/
def sampleFailingEnv : PassEnv :=
  { pick := 0, generateDataAck := fun _ => sampleHeader, writeErr := true, state := .OPEN }

/-- The state after the pass of `sampleClosing` under `sampleFailingEnv`. -/
def sampleAborted : WriteLoopState Nat Unit :=
  { label := .Exit,
    conn := { scc := 0, rcc := (),
              calls := [Call.sccStrobe, Call.hcWriteHeader sampleHeader, Call.abortQuietly] },
    writeNonData := { buf := [], closed := false },
    writeData := { buf := [], closed := true } }

/-- A sample goroutine in its first loop with a `nil` header waiting on
`writeNonData` and a payload waiting on `writeData`. -/
def sampleWaking : WriteLoopState Nat Unit :=
  { label := .Loop_I, conn := { scc := 0, rcc := (), calls := [] },
    writeNonData := { buf := [none], closed := false },
    writeData := { buf := [[1, 2, 3]], closed := false } }

/-- A sample goroutine in its third loop that finds `writeNonData` closed and
drained. -/
def sampleDrained : WriteLoopState Nat Unit :=
  { label := .Loop_III, conn := { scc := 0, rcc := (), calls := [] },
    writeNonData := { buf := [], closed := true },
    writeData := { buf := [], closed := true } }

/-- A sample connection whose `writeNonData` holds as many headers as it can. -/
def sampleFull : InjectConn Nat Unit :=
  { conn := { scc := 0, rcc := (), calls := [] },
    writeNonData := some { buf := [some sampleHeader, none], cap := 2 } }

/-! ## ccid3/sender.go

The file declares the struct `sender`, the four phases and the methods of the
sender's congestion control; the bodies of the methods are not part of the
sources at hand. -/

namespace ccid3

/-- The phase `INIT` of the `const` block (`iota`). -/
def INIT : Int := 0

/-- The phase `SLOWSTART`. -/
def SLOWSTART : Int := 1

/-- The phase `EQUATION`. -/
def EQUATION : Int := 2

/-- The phase `CLOSED`. -/
def CLOSED : Int := 3

/-- The struct `sender`: the fields `phase` and `rtt`. The embedded
`windowCounter` and `strober` are declared elsewhere and play no part in the
phase. -/
structure sender where
  phase : Int
  rtt : Int
deriving DecidableEq, Repr

/-- Modelled from the spec: the method `sender.Open`, whose body is absent from
the sources ("INIT → SLOWSTART on `open`", "no transitions out of CLOSED"). -/
def sender.Open (s : sender) : sender :=
  if s.phase = INIT then { s with phase := SLOWSTART } else s

/-- Modelled from the spec: the method `sender.Close`, whose body is absent from
the sources ("Any → CLOSED on `close`"). -/
def sender.Close (s : sender) : sender :=
  { s with phase := CLOSED }

/-- Modelled from the spec: what the method `sender.OnRead`, whose body is
absent from the sources, does to the fields of `sender`. `loss` says whether the
packet carries feedback with a non-zero loss-event rate or a declared loss
interval, `sample` is the round-trip time measured with it. An inactive sender
(before `Open`, after `Close`) does nothing; an active one takes the sample and
goes "SLOWSTART → EQUATION on first receiver feedback that carries a non-zero
loss-event rate". -/
def sender.OnRead (s : sender) (loss : Bool) (sample : Int) : sender :=
  if s.phase = SLOWSTART then
    { phase := if loss then EQUATION else SLOWSTART, rtt := sample }
  else if s.phase = EQUATION then { s with rtt := sample }
  else s

/-- The calls `Conn` makes on the sender's congestion control. -/
inductive SenderOp where
  | Open
  | OnWrite (htype : Nat) (x : Bool) (seqno : Int)
  | OnRead (loss : Bool) (sample : Int)
  | Strobe
  | OnIdle
  | Close
deriving DecidableEq, Repr

/-- Modelled from the spec: the fields of `sender` after one call. `OnWrite`,
`Strobe` and `OnIdle`, whose bodies are absent from the sources, report and wait
but are given no transition of the phase by the spec. -/
def sender.apply (s : sender) : SenderOp → sender
  | .Open => s.Open
  | .OnWrite _ _ _ => s
  | .OnRead loss sample => s.OnRead loss sample
  | .Strobe => s
  | .OnIdle => s
  | .Close => s.Close

/-- The fields of `sender` after a sequence of calls. -/
def sender.run : sender → List SenderOp → sender
  | s, [] => s
  | s, op :: ops => sender.run (s.apply op) ops

end ccid3

/-! # Properties -/

/-! ## `sort.Sort` meets its contract -/

theorem Swap_length (t : sleeperQueue) (i j : Nat) :
    (sleeperQueue.Swap t i j).length = t.length := by
  unfold sleeperQueue.Swap
  split <;> simp

theorem insertionSortInner_length (a : Nat) (j : Nat) :
    ∀ t : sleeperQueue, (insertionSortInner a j t).length = t.length := by
  induction j with
  | zero => intro t; rfl
  | succ j ih =>
    intro t
    simp only [insertionSortInner]
    split
    · rw [ih, Swap_length]
    · rfl

theorem insertionSortOuter_length (a b : Nat) (n : Nat) :
    ∀ (i : Nat) (t : sleeperQueue), (insertionSortOuter a b n i t).length = t.length := by
  induction n with
  | zero => intro i t; rfl
  | succ n ih =>
    intro i t
    simp only [insertionSortOuter]
    split
    · rw [ih, insertionSortInner_length]
    · rfl

theorem medianOfThree_length (t : sleeperQueue) (a b c : Nat) :
    (medianOfThree t a b c).length = t.length := by
  simp only [medianOfThree]
  split_ifs <;> simp [Swap_length]

theorem swapRange_length (t : sleeperQueue) (a b n : Nat) :
    (swapRange t a b n).length = t.length := by
  induction n with
  | zero => rfl
  | succ n ih => simp only [swapRange, Swap_length, ih]

theorem doPivotLoop_length (pivot : Nat) (n : Nat) :
    ∀ p : PivotState, (doPivotLoop pivot n p).data.length = p.data.length := by
  induction n with
  | zero => intro p; rfl
  | succ n ih =>
    intro p
    simp only [doPivotLoop]
    split_ifs <;> simp [ih, Swap_length]

theorem doPivot_length (t : sleeperQueue) (lo hi : Nat) :
    (doPivot t lo hi).1.length = t.length := by
  simp only [doPivot, swapRange_length, doPivotLoop_length, medianOfThree_length]
  split_ifs <;> simp [medianOfThree_length]

theorem quickSort_length (n : Nat) :
    ∀ (t : sleeperQueue) (a b : Nat), (quickSort n t a b).length = t.length := by
  induction n with
  | zero => intro t a b; rfl
  | succ n ih =>
    intro t a b
    simp only [quickSort]
    split_ifs
    · rw [ih, ih, doPivot_length]
    · rw [ih, ih, doPivot_length]
    · simp only [insertionSort, insertionSortOuter_length]
    · rfl

theorem sortSort_length (t : sleeperQueue) : (sortSort t).length = t.length :=
  quickSort_length _ t 0 t.length

theorem Swap_cons (y : scheduledToSleep) (t : sleeperQueue) (i j : Nat) :
    sleeperQueue.Swap (y :: t) (i + 1) (j + 1) = y :: sleeperQueue.Swap t i j := by
  unfold sleeperQueue.Swap
  simp only [List.getElem?_cons_succ]
  cases t[i]? <;> cases t[j]? <;> simp

theorem Less_cons (y : scheduledToSleep) (t : sleeperQueue) (i j : Nat) :
    sleeperQueue.Less (y :: t) (i + 1) (j + 1) = sleeperQueue.Less t i j := by
  unfold sleeperQueue.Less
  simp only [List.getElem?_cons_succ]

theorem wakeAt_of_getElem? (t : sleeperQueue) (i : Nat) (x : scheduledToSleep)
    (h : t[i]? = some x) : wakeAt t i = x.wake := by
  simp [wakeAt, h]

theorem wakeAt_congr (t u : sleeperQueue) (i j : Nat) (h : t[i]? = u[j]?) :
    wakeAt t i = wakeAt u j := by
  simp [wakeAt, h]

theorem Less_eq_wakeAt (t : sleeperQueue) (i j : Nat) (hi : i < t.length) (hj : j < t.length) :
    sleeperQueue.Less t i j = decide (wakeAt t i < wakeAt t j) := by
  simp [sleeperQueue.Less, wakeAt, List.getElem?_eq_getElem hi, List.getElem?_eq_getElem hj]

theorem Swap_getElem? (t : sleeperQueue) (i j k : Nat) (hi : i < t.length) (hj : j < t.length) :
    (sleeperQueue.Swap t i j)[k]? = if k = j then t[i]? else if k = i then t[j]? else t[k]? := by
  simp only [sleeperQueue.Swap, List.getElem?_eq_getElem hi, List.getElem?_eq_getElem hj]
  by_cases hkj : k = j
  · subst hkj
    simp [List.getElem?_set, hj]
  · by_cases hki : k = i
    · subst hki
      simp [List.getElem?_set, hkj, hi, Ne.symm hkj]
    · simp [List.getElem?_set, hkj, hki, Ne.symm hkj, Ne.symm hki]

theorem set_perm_cons (t : sleeperQueue) :
    ∀ (j : Nat) (x y : scheduledToSleep), t[j]? = some x →
      (x :: t.set j y).Perm (y :: t) := by
  induction t with
  | nil => intro j x y h; simp at h
  | cons z t ih =>
    intro j x y h
    cases j with
    | zero =>
      simp only [List.getElem?_cons_zero, Option.some.injEq] at h
      subst h
      simp only [List.set_cons_zero]
      exact List.Perm.swap _ _ _
    | succ j =>
      simp only [List.getElem?_cons_succ] at h
      simp only [List.set_cons_succ]
      exact (List.Perm.swap _ _ _).trans (((ih j x y h).cons z).trans (List.Perm.swap _ _ _))

theorem Swap_perm (t : sleeperQueue) : ∀ (i j : Nat), (sleeperQueue.Swap t i j).Perm t := by
  induction t with
  | nil => intro i j; simp [sleeperQueue.Swap]
  | cons z t ih =>
    intro i j
    cases i with
    | zero =>
      cases j with
      | zero => simp [sleeperQueue.Swap]
      | succ j =>
        simp only [sleeperQueue.Swap, List.getElem?_cons_zero, List.getElem?_cons_succ]
        cases hj : t[j]? with
        | none => simp
        | some y =>
          simp only [List.set_cons_zero, List.set_cons_succ]
          exact set_perm_cons t j y z hj
    | succ i =>
      cases j with
      | zero =>
        simp only [sleeperQueue.Swap, List.getElem?_cons_zero, List.getElem?_cons_succ]
        cases hi : t[i]? with
        | none => simp
        | some x =>
          simp only [List.set_cons_zero, List.set_cons_succ]
          exact set_perm_cons t i x z hi
      | succ j =>
        rw [Swap_cons]
        exact (ih i j).cons z

theorem Within.refl (lo hi : Nat) (t : sleeperQueue) : Within lo hi t t :=
  ⟨rfl, fun _ _ => rfl, fun _ h => h, List.Perm.refl _⟩

theorem Within.trans {lo hi : Nat} {t u v : sleeperQueue} (h1 : Within lo hi t u)
    (h2 : Within lo hi u v) : Within lo hi t v :=
  ⟨h2.length.trans h1.length, fun k hk => (h2.frame k hk).trans (h1.frame k hk),
    fun P hP => h2.closed P (h1.closed P hP), h2.perm.trans h1.perm⟩

theorem Within.mono {lo hi lo2 hi2 : Nat} {t u : sleeperQueue} (h : Within lo2 hi2 t u)
    (hlo : lo ≤ lo2) (hhi : hi2 ≤ hi) : Within lo hi t u := by
  refine ⟨h.length, fun k hk => h.frame k (by omega), ?_, h.perm⟩
  intro P hP k hk1 hk2
  by_cases hin : lo2 ≤ k ∧ k < hi2
  · exact h.closed P (fun k2 h1 h2 => hP k2 (by omega) (by omega)) k hin.1 hin.2
  · rw [wakeAt_congr u t k k (h.frame k (by omega))]
    exact hP k hk1 hk2

theorem Within_Swap (lo hi : Nat) (t : sleeperQueue) (i j : Nat) (hi1 : lo ≤ i) (hi2 : i < hi)
    (hj1 : lo ≤ j) (hj2 : j < hi) (hlen : hi ≤ t.length) :
    Within lo hi t (sleeperQueue.Swap t i j) := by
  have hil : i < t.length := by omega
  have hjl : j < t.length := by omega
  refine ⟨Swap_length t i j, ?_, ?_, Swap_perm t i j⟩
  · intro k hk
    rw [Swap_getElem? t i j k hil hjl, if_neg (by omega), if_neg (by omega)]
  · intro P hP k hk1 hk2
    by_cases hkj : k = j
    · rw [wakeAt_congr _ t k i (by rw [Swap_getElem? t i j k hil hjl, if_pos hkj])]
      exact hP i hi1 hi2
    · by_cases hki : k = i
      · rw [wakeAt_congr _ t k j (by rw [Swap_getElem? t i j k hil hjl, if_neg hkj, if_pos hki])]
        exact hP j hj1 hj2
      · rw [wakeAt_congr _ t k k
          (by rw [Swap_getElem? t i j k hil hjl, if_neg hkj, if_neg hki])]
        exact hP k hk1 hk2

theorem wakeAt_Swap (t : sleeperQueue) (i j k : Nat) (hi : i < t.length) (hj : j < t.length) :
    wakeAt (sleeperQueue.Swap t i j) k =
      if k = j then wakeAt t i else if k = i then wakeAt t j else wakeAt t k := by
  unfold wakeAt
  rw [Swap_getElem? t i j k hi hj]
  split_ifs <;> rfl

theorem insertionSortInner_spec (a i : Nat) (j : Nat) :
    ∀ (t : sleeperQueue), a ≤ j → j ≤ i → i < t.length →
      (∀ p q, a ≤ p → p < q → q ≤ i → p ≠ j → q ≠ j → wakeAt t p ≤ wakeAt t q) →
      (∀ q, j < q → q ≤ i → wakeAt t j < wakeAt t q) →
      Within a (i + 1) t (insertionSortInner a j t) ∧
        SortedRange (insertionSortInner a j t) a (i + 1) := by
  induction j with
  | zero =>
    intro t ha hji hil h1 h2
    refine ⟨Within.refl _ _ _, ?_⟩
    intro p q hp hpq hq
    simp only [insertionSortInner]
    by_cases hp0 : p = 0
    · subst hp0
      exact le_of_lt (h2 q hpq (by omega))
    · exact h1 p q hp hpq (by omega) hp0 (by omega)
  | succ j ih =>
    intro t ha hji hil h1 h2
    simp only [insertionSortInner]
    rw [Less_eq_wakeAt t (j + 1) j (by omega) (by omega)]
    by_cases hc : a < j + 1 ∧ decide (wakeAt t (j + 1) < wakeAt t j) = true
    · rw [if_pos hc]
      have hlt : wakeAt t (j + 1) < wakeAt t j := by simpa using hc.2
      have hw := wakeAt_Swap t (j + 1) j
      have hsw := Within_Swap a (i + 1) t (j + 1) j (by omega) (by omega) (by omega)
        (by omega) (by omega)
      obtain ⟨ihw, ihs⟩ := ih (sleeperQueue.Swap t (j + 1) j) (by omega) (by omega)
        (by rw [Swap_length]; exact hil)
        (by
          intro p q hp hpq hq hpj hqj
          rw [hw p (by omega) (by omega), hw q (by omega) (by omega)]
          simp only [if_neg hpj, if_neg hqj]
          by_cases hp1 : p = j + 1
          · subst hp1
            rw [if_pos rfl, if_neg (by omega)]
            exact h1 j q (by omega) (by omega) hq (by omega) (by omega)
          · rw [if_neg hp1]
            by_cases hq1 : q = j + 1
            · subst hq1
              rw [if_pos rfl]
              exact h1 p j hp (by omega) (by omega) hp1 (by omega)
            · rw [if_neg hq1]
              exact h1 p q hp hpq hq hp1 hq1)
        (by
          intro q hjq hq
          rw [hw j (by omega) (by omega), hw q (by omega) (by omega)]
          simp only [if_true]
          rw [if_neg (by omega)]
          by_cases hq1 : q = j + 1
          · subst hq1
            rw [if_pos rfl]
            exact hlt
          · rw [if_neg hq1]
            exact h2 q (by omega) hq)
      exact ⟨hsw.trans ihw, ihs⟩
    · rw [if_neg hc]
      refine ⟨Within.refl _ _ _, ?_⟩
      intro p q hp hpq hq
      by_cases hp1 : p = j + 1
      · subst hp1
        exact le_of_lt (h2 q hpq (by omega))
      · by_cases hq1 : q = j + 1
        · subst hq1
          have haj : a < j + 1 := by omega
          have hnl : ¬ wakeAt t (j + 1) < wakeAt t j := by
            intro hl
            exact hc ⟨haj, by simpa using hl⟩
          by_cases hpj : p = j
          · subst hpj; omega
          · have := h1 p j hp (by omega) (by omega) hp1 (by omega)
            omega
        · exact h1 p q hp hpq (by omega) hp1 hq1

theorem insertionSortOuter_spec (a b : Nat) (n : Nat) :
    ∀ (i : Nat) (t : sleeperQueue), a < i → i ≤ b → b ≤ t.length → b - i ≤ n →
      SortedRange t a i →
      Within a b t (insertionSortOuter a b n i t) ∧
        SortedRange (insertionSortOuter a b n i t) a b := by
  induction n with
  | zero =>
    intro i t hai hib hbl hn hs
    have : i = b := by omega
    subst this
    exact ⟨Within.refl _ _ _, hs⟩
  | succ n ih =>
    intro i t hai hib hbl hn hs
    simp only [insertionSortOuter]
    by_cases hlt : i < b
    · rw [if_pos hlt]
      obtain ⟨hw, hs2⟩ := insertionSortInner_spec a i i t (by omega) (le_refl _) (by omega)
        (fun p q hp hpq hq _ hqi => hs p q hp hpq (by omega))
        (fun q h1 h2 => by omega)
      obtain ⟨hw3, hs3⟩ := ih (i + 1) (insertionSortInner a i t) (by omega) (by omega)
        (by rw [hw.length]; exact hbl) (by omega) hs2
      exact ⟨(hw.mono (le_refl _) (by omega)).trans hw3, hs3⟩
    · rw [if_neg hlt]
      have : i = b := by omega
      subst this
      exact ⟨Within.refl _ _ _, hs⟩

theorem insertionSort_spec (t : sleeperQueue) (a b : Nat) (hab : a < b) (hbl : b ≤ t.length) :
    Within a b t (insertionSort t a b) ∧ SortedRange (insertionSort t a b) a b := by
  unfold insertionSort
  exact insertionSortOuter_spec a b (b - a) (a + 1) t (by omega) (by omega) hbl (by omega)
    (fun i j h1 h2 h3 => by omega)

theorem medianOfThree_within (lo hi : Nat) (t : sleeperQueue) (a b c : Nat)
    (ha : lo ≤ a ∧ a < hi) (hb : lo ≤ b ∧ b < hi) (hc : lo ≤ c ∧ c < hi)
    (hlen : hi ≤ t.length) : Within lo hi t (medianOfThree t a b c) := by
  have step : ∀ (u : sleeperQueue) (i j : Nat), lo ≤ i ∧ i < hi → lo ≤ j ∧ j < hi →
      Within lo hi t u →
      Within lo hi t (if sleeperQueue.Less u i j = true then sleeperQueue.Swap u i j else u) := by
    intro u i j hi1 hj1 hu
    split
    · exact hu.trans (Within_Swap lo hi u i j hi1.1 hi1.2 hj1.1 hj1.2 (by rw [hu.length]; exact hlen))
    · exact hu
  simp only [medianOfThree]
  exact step _ a b ha hb (step _ c a hc ha (step _ a b ha hb (Within.refl _ _ _)))

theorem swapRange_getElem? (t : sleeperQueue) (a b : Nat) (n : Nat) :
    a + n ≤ b → b + n ≤ t.length → ∀ k,
      (swapRange t a b n)[k]? =
        if a ≤ k ∧ k < a + n then t[k - a + b]?
        else if b ≤ k ∧ k < b + n then t[k - b + a]?
        else t[k]? := by
  induction n with
  | zero =>
    intro _ _ k
    simp only [swapRange, Nat.add_zero]
    rw [if_neg (by omega), if_neg (by omega)]
  | succ n ih =>
    intro hab hbl k
    simp only [swapRange]
    rw [Swap_getElem? _ _ _ _ (by rw [swapRange_length]; omega)
      (by rw [swapRange_length]; omega)]
    rw [ih (by omega) (by omega), ih (by omega) (by omega), ih (by omega) (by omega)]
    split_ifs <;> first | rfl | (exfalso; omega) | (congr 1; omega)

theorem swapRange_within (lo hi : Nat) (t : sleeperQueue) (a b : Nat) (n : Nat) :
    lo ≤ a → a + n ≤ b → b + n ≤ hi → hi ≤ t.length →
      Within lo hi t (swapRange t a b n) := by
  induction n with
  | zero => intro _ _ _ _; exact Within.refl _ _ _
  | succ n ih =>
    intro hlo hab hbh hlen
    simp only [swapRange]
    have h1 := ih hlo (by omega) (by omega) hlen
    exact h1.trans (Within_Swap lo hi _ (a + n) (b + n) (by omega) (by omega) (by omega)
      (by omega) (by rw [h1.length]; exact hlen))

theorem wakeAt_swapRange (t : sleeperQueue) (a b n : Nat) (hab : a + n ≤ b)
    (hbl : b + n ≤ t.length) (k : Nat) :
    wakeAt (swapRange t a b n) k =
      if a ≤ k ∧ k < a + n then wakeAt t (k - a + b)
      else if b ≤ k ∧ k < b + n then wakeAt t (k - b + a)
      else wakeAt t k := by
  unfold wakeAt
  rw [swapRange_getElem? t a b n hab hbl k]
  split_ifs <;> rfl

theorem doPivotLoop_spec (lo hi : Nat) (v : Int) (n : Nat) :
    ∀ p : PivotState, PivotInv lo hi v p → p.c - p.b ≤ n →
      PivotInv lo hi v (doPivotLoop lo n p) ∧
        (doPivotLoop lo n p).b = (doPivotLoop lo n p).c ∧
        Within lo hi p.data (doPivotLoop lo n p).data := by
  induction n with
  | zero =>
    intro p hp hn
    have := hp.hbc
    exact ⟨hp, by simp only [doPivotLoop]; omega, Within.refl _ _ _⟩
  | succ n ih =>
    intro p hp hn
    obtain ⟨ha, hab, hbc, hcd, hd, hlen, eqL, lt, gt, eqR⟩ := hp
    simp only [doPivotLoop]
    by_cases hlt : p.b < p.c
    · rw [if_pos hlt]
      have hv : wakeAt p.data lo = v := eqL lo (le_refl _) ha
      rw [Less_eq_wakeAt p.data p.b lo (by omega) (by omega),
        Less_eq_wakeAt p.data lo p.b (by omega) (by omega),
        Less_eq_wakeAt p.data lo (p.c - 1) (by omega) (by omega),
        Less_eq_wakeAt p.data (p.c - 1) lo (by omega) (by omega), hv]
      by_cases h1 : wakeAt p.data p.b < v
      · simp only [h1, decide_True, if_true]
        obtain ⟨i1, i2, i3⟩ := ih { p with b := p.b + 1 }
          ⟨ha, by simp only; omega, by simp only; omega, hcd, hd, hlen, eqL,
            (fun k hk1 hk2 => by
              simp only at hk2
              by_cases hk : k = p.b
              · subst hk; exact h1
              · exact lt k hk1 (by omega)), gt, eqR⟩
          (by simp only; omega)
        exact ⟨i1, i2, i3⟩
      · by_cases h2 : v < wakeAt p.data p.b
        · by_cases h3 : v < wakeAt p.data (p.c - 1)
          · simp only [h1, h2, h3, decide_True, decide_False, Bool.not_true, if_true,
              Bool.false_eq_true, if_false]
            obtain ⟨i1, i2, i3⟩ := ih { p with c := p.c - 1 }
              ⟨ha, hab, by simp only; omega, by simp only; omega, hd, hlen, eqL, lt,
                (fun k hk1 hk2 => by
                  simp only at hk1
                  by_cases hk : k = p.c - 1
                  · subst hk; exact h3
                  · exact gt k (by omega) hk2), eqR⟩
              (by simp only; omega)
            exact ⟨i1, i2, i3⟩
          · by_cases h4 : wakeAt p.data (p.c - 1) < v
            · simp only [h1, h2, h3, h4, decide_True, decide_False, Bool.not_true, if_true,
                Bool.false_eq_true, if_false]
              have hne : p.b ≠ p.c - 1 := by
                intro he
                rw [← he] at h4
                omega
              have hw := wakeAt_Swap p.data p.b (p.c - 1)
              obtain ⟨i1, i2, i3⟩ := ih
                { p with data := sleeperQueue.Swap p.data p.b (p.c - 1),
                         b := p.b + 1, c := p.c - 1 }
                ⟨ha, by simp only; omega, by simp only; omega, by simp only; omega, hd,
                  by simp only [Swap_length]; exact hlen,
                  (fun k hk1 hk2 => by
                    simp only at hk2 ⊢
                    rw [hw k (by omega) (by omega), if_neg (by omega), if_neg (by omega)]
                    exact eqL k hk1 hk2),
                  (fun k hk1 hk2 => by
                    simp only at hk1 hk2 ⊢
                    rw [hw k (by omega) (by omega), if_neg (by omega)]
                    by_cases hk : k = p.b
                    · rw [if_pos hk]; exact h4
                    · rw [if_neg hk]; exact lt k hk1 (by omega)),
                  (fun k hk1 hk2 => by
                    simp only at hk1 hk2 ⊢
                    rw [hw k (by omega) (by omega)]
                    by_cases hk : k = p.c - 1
                    · rw [if_pos hk]; exact h2
                    · rw [if_neg hk, if_neg (by omega)]; exact gt k (by omega) hk2),
                  (fun k hk1 hk2 => by
                    simp only at hk1 ⊢
                    rw [hw k (by omega) (by omega), if_neg (by omega), if_neg (by omega)]
                    exact eqR k hk1 hk2)⟩
                (by simp only; omega)
              exact ⟨i1, i2, (Within_Swap lo hi p.data p.b (p.c - 1) (by omega) (by omega)
                (by omega) (by omega) hlen).trans i3⟩
            · simp only [h1, h2, h3, h4, decide_True, decide_False, Bool.not_true,
                Bool.not_false, if_true, Bool.false_eq_true, if_false]
              have h5 : wakeAt p.data (p.c - 1) = v := by omega
              have hw := wakeAt_Swap p.data (p.c - 1) (p.d - 1)
              obtain ⟨i1, i2, i3⟩ := ih
                { p with data := sleeperQueue.Swap p.data (p.c - 1) (p.d - 1),
                         c := p.c - 1, d := p.d - 1 }
                ⟨ha, hab, by simp only; omega, by simp only; omega, by simp only; omega,
                  by simp only [Swap_length]; exact hlen,
                  (fun k hk1 hk2 => by
                    simp only at hk2 ⊢
                    rw [hw k (by omega) (by omega), if_neg (by omega), if_neg (by omega)]
                    exact eqL k hk1 hk2),
                  (fun k hk1 hk2 => by
                    simp only at hk1 hk2 ⊢
                    rw [hw k (by omega) (by omega), if_neg (by omega), if_neg (by omega)]
                    exact lt k hk1 hk2),
                  (fun k hk1 hk2 => by
                    simp only at hk1 hk2 ⊢
                    rw [hw k (by omega) (by omega), if_neg (by omega)]
                    by_cases hk : k = p.c - 1
                    · rw [if_pos hk]; exact gt (p.d - 1) (by omega) (by omega)
                    · rw [if_neg hk]; exact gt k (by omega) (by omega)),
                  (fun k hk1 hk2 => by
                    simp only at hk1 ⊢
                    rw [hw k (by omega) (by omega)]
                    by_cases hk : k = p.d - 1
                    · rw [if_pos hk]; exact h5
                    · rw [if_neg hk, if_neg (by omega)]; exact eqR k (by omega) hk2)⟩
                (by simp only; omega)
              exact ⟨i1, i2, (Within_Swap lo hi p.data (p.c - 1) (p.d - 1) (by omega)
                (by omega) (by omega) (by omega) hlen).trans i3⟩
        · simp only [h1, h2, decide_False, Bool.not_false, if_true, Bool.false_eq_true,
            if_false]
          have h5 : wakeAt p.data p.b = v := by omega
          have hw := wakeAt_Swap p.data p.a p.b
          obtain ⟨i1, i2, i3⟩ := ih
            { p with data := sleeperQueue.Swap p.data p.a p.b, a := p.a + 1, b := p.b + 1 }
            ⟨by simp only; omega, by simp only; omega, by simp only; omega, hcd, hd,
              by simp only [Swap_length]; exact hlen,
              (fun k hk1 hk2 => by
                simp only at hk2 ⊢
                rw [hw k (by omega) (by omega)]
                by_cases hkb : k = p.b
                · rw [if_pos hkb]
                  have : p.a = p.b := by omega
                  rw [this]; exact h5
                · rw [if_neg hkb]
                  by_cases hka : k = p.a
                  · rw [if_pos hka]; exact h5
                  · rw [if_neg hka]; exact eqL k hk1 (by omega)),
              (fun k hk1 hk2 => by
                simp only at hk1 hk2 ⊢
                rw [hw k (by omega) (by omega)]
                by_cases hkb : k = p.b
                · rw [if_pos hkb]; exact lt p.a (le_refl _) (by omega)
                · rw [if_neg hkb, if_neg (by omega)]; exact lt k (by omega) (by omega)),
              (fun k hk1 hk2 => by
                simp only at hk1 hk2 ⊢
                rw [hw k (by omega) (by omega), if_neg (by omega), if_neg (by omega)]
                exact gt k hk1 hk2),
              (fun k hk1 hk2 => by
                simp only at hk1 ⊢
                rw [hw k (by omega) (by omega), if_neg (by omega), if_neg (by omega)]
                exact eqR k hk1 hk2)⟩
            (by simp only; omega)
          exact ⟨i1, i2, (Within_Swap lo hi p.data p.a p.b (by omega) (by omega)
            (by omega) (by omega) hlen).trans i3⟩
    · rw [if_neg hlt]
      exact ⟨⟨ha, hab, hbc, hcd, hd, hlen, eqL, lt, gt, eqR⟩, by omega, Within.refl _ _ _⟩

theorem doPivot_blocks (lo hi : Nat) (v : Int) (p : PivotState) (hp : PivotInv lo hi v p)
    (hbc : p.b = p.c) (n1 n2 : Nat) (hn1 : n1 = min (p.b - p.a) (p.a - lo))
    (hn2 : n2 = min (hi - p.d) (p.d - p.c)) :
    Within lo hi p.data (swapRange (swapRange p.data lo (p.b - n1) n1) p.c (hi - n2) n2) ∧
      (∀ k, lo ≤ k → k < lo + p.b - p.a →
        wakeAt (swapRange (swapRange p.data lo (p.b - n1) n1) p.c (hi - n2) n2) k < v) ∧
      (∀ k, lo + p.b - p.a ≤ k → k < hi - (p.d - p.c) →
        wakeAt (swapRange (swapRange p.data lo (p.b - n1) n1) p.c (hi - n2) n2) k = v) ∧
      (∀ k, hi - (p.d - p.c) ≤ k → k < hi →
        v < wakeAt (swapRange (swapRange p.data lo (p.b - n1) n1) p.c (hi - n2) n2) k) := by
  obtain ⟨ha, hab, hbc', hcd, hd, hlen, eqL, lt, gt, eqR⟩ := hp
  have h1a : n1 ≤ p.b - p.a := by rw [hn1]; exact Nat.min_le_left _ _
  have h1b : n1 ≤ p.a - lo := by rw [hn1]; exact Nat.min_le_right _ _
  have h1c : n1 = p.b - p.a ∨ n1 = p.a - lo := by
    rw [hn1]; rcases Nat.le_total (p.b - p.a) (p.a - lo) with h | h
    · left; exact Nat.min_eq_left h
    · right; exact Nat.min_eq_right h
  have h2a : n2 ≤ hi - p.d := by rw [hn2]; exact Nat.min_le_left _ _
  have h2b : n2 ≤ p.d - p.c := by rw [hn2]; exact Nat.min_le_right _ _
  have h2c : n2 = hi - p.d ∨ n2 = p.d - p.c := by
    rw [hn2]; rcases Nat.le_total (hi - p.d) (p.d - p.c) with h | h
    · left; exact Nat.min_eq_left h
    · right; exact Nat.min_eq_right h
  have hw1 := wakeAt_swapRange p.data lo (p.b - n1) n1 (by omega) (by omega)
  have hl1 : (swapRange p.data lo (p.b - n1) n1).length = p.data.length :=
    swapRange_length _ _ _ _
  have hw2 := wakeAt_swapRange (swapRange p.data lo (p.b - n1) n1) p.c (hi - n2) n2
    (by omega) (by rw [hl1]; omega)
  have W1 : Within lo hi p.data (swapRange p.data lo (p.b - n1) n1) :=
    swapRange_within lo hi p.data lo (p.b - n1) n1 (le_refl _) (by omega) (by omega) hlen
  have W2 : Within lo hi (swapRange p.data lo (p.b - n1) n1)
      (swapRange (swapRange p.data lo (p.b - n1) n1) p.c (hi - n2) n2) :=
    swapRange_within lo hi _ p.c (hi - n2) n2 (by omega) (by omega) (by omega)
      (by rw [hl1]; exact hlen)
  -- the regions after the first exchange
  have A : ∀ k, lo ≤ k → k < lo + p.b - p.a →
      wakeAt (swapRange p.data lo (p.b - n1) n1) k < v := by
    intro k hk1 hk2
    rw [hw1 k]
    by_cases c1 : lo ≤ k ∧ k < lo + n1
    · rw [if_pos c1]
      exact lt _ (by omega) (by omega)
    · rw [if_neg c1, if_neg (by omega)]
      exact lt k (by omega) (by omega)
  have B : ∀ k, lo + p.b - p.a ≤ k → k < p.b →
      wakeAt (swapRange p.data lo (p.b - n1) n1) k = v := by
    intro k hk1 hk2
    rw [hw1 k, if_neg (by omega)]
    by_cases c2 : p.b - n1 ≤ k ∧ k < p.b - n1 + n1
    · rw [if_pos c2]
      exact eqL _ (by omega) (by omega)
    · rw [if_neg c2]
      exact eqL k (by omega) (by omega)
  have C : ∀ k, p.b ≤ k →
      wakeAt (swapRange p.data lo (p.b - n1) n1) k = wakeAt p.data k := by
    intro k hk
    rw [hw1 k, if_neg (by omega), if_neg (by omega)]
  refine ⟨W1.trans W2, ?_, ?_, ?_⟩
  · intro k hk1 hk2
    rw [hw2 k, if_neg (by omega), if_neg (by omega)]
    exact A k hk1 hk2
  · intro k hk1 hk2
    rw [hw2 k]
    by_cases c1 : p.c ≤ k ∧ k < p.c + n2
    · rw [if_pos c1, C _ (by omega)]
      exact eqR _ (by omega) (by omega)
    · rw [if_neg c1, if_neg (by omega)]
      by_cases hkb : k < p.b
      · exact B k hk1 hkb
      · rw [C k (by omega)]
        exact eqR k (by omega) (by omega)
  · intro k hk1 hk2
    rw [hw2 k, if_neg (by omega)]
    by_cases c2 : hi - n2 ≤ k ∧ k < hi - n2 + n2
    · rw [if_pos c2, C _ (by omega)]
      exact gt _ (by omega) (by omega)
    · rw [if_neg c2, C k (by omega)]
      exact gt k (by omega) (by omega)

theorem doPivot_spec (t : sleeperQueue) (lo hi : Nat) (hlh : lo < hi) (hlen : hi ≤ t.length) :
    Within lo hi t (doPivot t lo hi).1 ∧
      lo ≤ (doPivot t lo hi).2.1 ∧ (doPivot t lo hi).2.1 < (doPivot t lo hi).2.2 ∧
      (doPivot t lo hi).2.2 ≤ hi ∧
      ∃ v : Int,
        (∀ k, lo ≤ k → k < (doPivot t lo hi).2.1 → wakeAt (doPivot t lo hi).1 k < v) ∧
        (∀ k, (doPivot t lo hi).2.1 ≤ k → k < (doPivot t lo hi).2.2 →
          wakeAt (doPivot t lo hi).1 k = v) ∧
        (∀ k, (doPivot t lo hi).2.2 ≤ k → k < hi → v < wakeAt (doPivot t lo hi).1 k) := by
  -- the pivot is chosen
  have W0 : Within lo hi t
      (if hi - lo > 40 then
        medianOfThree
          (medianOfThree
            (medianOfThree t lo (lo + (hi - lo) / 8) (lo + 2 * ((hi - lo) / 8)))
            (lo + (hi - lo) / 2) (lo + (hi - lo) / 2 - (hi - lo) / 8)
            (lo + (hi - lo) / 2 + (hi - lo) / 8))
          (hi - 1) (hi - 1 - (hi - lo) / 8) (hi - 1 - 2 * ((hi - lo) / 8))
      else t) := by
    split
    · rename_i h40
      have w1 := medianOfThree_within lo hi t lo (lo + (hi - lo) / 8)
        (lo + 2 * ((hi - lo) / 8)) (by omega) (by omega) (by omega) hlen
      have w2 := medianOfThree_within lo hi _ (lo + (hi - lo) / 2)
        (lo + (hi - lo) / 2 - (hi - lo) / 8) (lo + (hi - lo) / 2 + (hi - lo) / 8)
        (by omega) (by omega) (by omega) (by rw [w1.length]; exact hlen)
      have w3 := medianOfThree_within lo hi _ (hi - 1) (hi - 1 - (hi - lo) / 8)
        (hi - 1 - 2 * ((hi - lo) / 8)) (by omega) (by omega) (by omega)
        (by rw [w2.length, w1.length]; exact hlen)
      exact (w1.trans w2).trans w3
    · exact Within.refl _ _ _
  generalize ht0 : (if hi - lo > 40 then
        medianOfThree
          (medianOfThree
            (medianOfThree t lo (lo + (hi - lo) / 8) (lo + 2 * ((hi - lo) / 8)))
            (lo + (hi - lo) / 2) (lo + (hi - lo) / 2 - (hi - lo) / 8)
            (lo + (hi - lo) / 2 + (hi - lo) / 8))
          (hi - 1) (hi - 1 - (hi - lo) / 8) (hi - 1 - 2 * ((hi - lo) / 8))
      else t) = t0 at W0
  have W1 := medianOfThree_within lo hi t0 lo (lo + (hi - lo) / 2) (hi - 1)
    (by omega) (by omega) (by omega) (by rw [W0.length]; exact hlen)
  have hl1 : hi ≤ (medianOfThree t0 lo (lo + (hi - lo) / 2) (hi - 1)).length := by
    rw [W1.length, W0.length]; exact hlen
  -- the partition loop
  obtain ⟨hp, hbc, W2⟩ := doPivotLoop_spec lo hi
    (wakeAt (medianOfThree t0 lo (lo + (hi - lo) / 2) (hi - 1)) lo) (hi - lo)
    { data := medianOfThree t0 lo (lo + (hi - lo) / 2) (hi - 1),
      a := lo + 1, b := lo + 1, c := hi, d := hi }
    ⟨by simp only; omega, le_refl _, by simp only; omega, le_refl _, le_refl _, hl1,
      (fun k hk1 hk2 => by
        simp only at hk2 ⊢
        have : k = lo := by omega
        rw [this]),
      (fun k hk1 hk2 => by simp only at hk1 hk2; omega),
      (fun k hk1 hk2 => by simp only at hk1 hk2; omega),
      (fun k hk1 hk2 => by simp only at hk1; omega)⟩
    (by simp only; omega)
  simp only at W2
  generalize hpe : doPivotLoop lo (hi - lo)
    { data := medianOfThree t0 lo (lo + (hi - lo) / 2) (hi - 1),
      a := lo + 1, b := lo + 1, c := hi, d := hi } = p at hp hbc W2
  obtain ⟨B0, B1, B2, B3⟩ := doPivot_blocks lo hi _ p hp hbc _ _ rfl rfl
  have hres : doPivot t lo hi =
      (swapRange (swapRange p.data lo (p.b - min (p.b - p.a) (p.a - lo))
          (min (p.b - p.a) (p.a - lo))) p.c (hi - min (hi - p.d) (p.d - p.c))
          (min (hi - p.d) (p.d - p.c)),
        lo + p.b - p.a, hi - (p.d - p.c)) := by
    simp only [doPivot, ht0, hpe]
  rw [hres]
  simp only
  have := hp.ha
  have := hp.hab
  have := hp.hbc
  have := hp.hcd
  have := hp.hd
  exact ⟨((W0.trans W1).trans W2).trans B0, by omega, by omega, by omega, _, B1, B2, B3⟩

theorem sortedRange_of_blocks (u : sleeperQueue) (a mlo mhi b : Nat) (v : Int)
    (hL : SortedRange u a mlo) (hR : SortedRange u mhi b)
    (h1 : ∀ k, a ≤ k → k < mlo → wakeAt u k < v)
    (h2 : ∀ k, mlo ≤ k → k < mhi → wakeAt u k = v)
    (h3 : ∀ k, mhi ≤ k → k < b → v < wakeAt u k) : SortedRange u a b := by
  intro i j hi hij hj
  by_cases hi1 : i < mlo
  · by_cases hj1 : j < mlo
    · exact hL i j hi hij hj1
    · have := h1 i hi hi1
      by_cases hj2 : j < mhi
      · have := h2 j (by omega) hj2
        omega
      · have := h3 j (by omega) hj
        omega
  · by_cases hi2 : i < mhi
    · have := h2 i (by omega) hi2
      by_cases hj2 : j < mhi
      · have := h2 j (by omega) hj2
        omega
      · have := h3 j (by omega) hj
        omega
    · exact hR i j (by omega) hij hj

theorem quickSort_spec (n : Nat) :
    ∀ (t : sleeperQueue) (a b : Nat), a ≤ b → b ≤ t.length → b - a ≤ n →
      Within a b t (quickSort n t a b) ∧ SortedRange (quickSort n t a b) a b := by
  induction n with
  | zero =>
    intro t a b hab hbl hn
    exact ⟨Within.refl _ _ _, fun i j h1 h2 h3 => by omega⟩
  | succ n ih =>
    intro t a b hab hbl hn
    simp only [quickSort]
    by_cases h7 : b - a > 7
    · rw [if_pos h7]
      obtain ⟨W, hlo, hmid, hhi, v, r1, r2, r3⟩ := doPivot_spec t a b (by omega) hbl
      generalize doPivot t a b = r at W hlo hmid hhi r1 r2 r3
      obtain ⟨u, mlo, mhi⟩ := r
      simp only at W hlo hmid hhi r1 r2 r3 ⊢
      have hul : u.length = t.length := W.length
      by_cases hside : mlo - a < b - mhi
      · rw [if_pos hside]
        obtain ⟨W1, S1⟩ := ih u a mlo hlo (by omega) (by omega)
        obtain ⟨W2, S2⟩ := ih (quickSort n u a mlo) mhi b hhi
          (by rw [W1.length]; omega) (by omega)
        refine ⟨W.trans ((W1.mono (le_refl _) (by omega)).trans (W2.mono (by omega) (le_refl _))),
          ?_⟩
        have f2 : ∀ k, k < mhi →
            wakeAt (quickSort n (quickSort n u a mlo) mhi b) k =
              wakeAt (quickSort n u a mlo) k :=
          fun k hk => wakeAt_congr _ _ k k (W2.frame k (Or.inl hk))
        have f1 : ∀ k, mlo ≤ k → wakeAt (quickSort n u a mlo) k = wakeAt u k :=
          fun k hk => wakeAt_congr _ _ k k (W1.frame k (Or.inr hk))
        refine sortedRange_of_blocks _ a mlo mhi b v ?_ S2 ?_ ?_ ?_
        · intro i j hi hij hj
          rw [f2 i (by omega), f2 j (by omega)]
          exact S1 i j hi hij hj
        · intro k hk1 hk2
          rw [f2 k (by omega)]
          exact W1.closed (fun x => x < v) r1 k hk1 hk2
        · intro k hk1 hk2
          rw [f2 k hk2, f1 k hk1]
          exact r2 k hk1 hk2
        · intro k hk1 hk2
          refine W2.closed (fun x => v < x) ?_ k hk1 hk2
          intro k2 h1 h2
          rw [f1 k2 (by omega)]
          exact r3 k2 h1 h2
      · rw [if_neg hside]
        obtain ⟨W1, S1⟩ := ih u mhi b hhi (by omega) (by omega)
        obtain ⟨W2, S2⟩ := ih (quickSort n u mhi b) a mlo hlo
          (by rw [W1.length]; omega) (by omega)
        refine ⟨W.trans ((W1.mono (by omega) (le_refl _)).trans (W2.mono (le_refl _) (by omega))),
          ?_⟩
        have f2 : ∀ k, mlo ≤ k →
            wakeAt (quickSort n (quickSort n u mhi b) a mlo) k =
              wakeAt (quickSort n u mhi b) k :=
          fun k hk => wakeAt_congr _ _ k k (W2.frame k (Or.inr hk))
        have f1 : ∀ k, k < mhi → wakeAt (quickSort n u mhi b) k = wakeAt u k :=
          fun k hk => wakeAt_congr _ _ k k (W1.frame k (Or.inl hk))
        refine sortedRange_of_blocks _ a mlo mhi b v S2 ?_ ?_ ?_ ?_
        · intro i j hi hij hj
          rw [f2 i (by omega), f2 j (by omega)]
          exact S1 i j hi hij hj
        · intro k hk1 hk2
          refine W2.closed (fun x => x < v) ?_ k hk1 hk2
          intro k2 h1 h2
          rw [f1 k2 (by omega)]
          exact r1 k2 h1 h2
        · intro k hk1 hk2
          rw [f2 k hk1, f1 k hk2]
          exact r2 k hk1 hk2
        · intro k hk1 hk2
          rw [f2 k (by omega)]
          exact W1.closed (fun x => v < x) r3 k hk1 hk2
    · rw [if_neg h7]
      by_cases h1 : b - a > 1
      · rw [if_pos h1]
        exact insertionSort_spec t a b (by omega) hbl
      · rw [if_neg h1]
        exact ⟨Within.refl _ _ _, fun i j h1 h2 h3 => by omega⟩

/-- The model of `sort.Sort` does what the library promises. -/
theorem sortSort_contract : SortContract sortSort := by
  constructor
  · intro t
    exact (quickSort_spec (t.length + 1) t 0 t.length (Nat.zero_le _) (le_refl _)
      (by omega)).1.perm
  · intro t
    obtain ⟨W, S⟩ := quickSort_spec (t.length + 1) t 0 t.length (Nat.zero_le _) (le_refl _)
      (by omega)
    rw [List.pairwise_iff_getElem]
    intro i j hi hj hij
    have : wakeAt (sortSort t) i ≤ wakeAt (sortSort t) j :=
      S i j (Nat.zero_le _) hij (by rw [← W.length]; exact hj)
    rw [wakeAt_of_getElem? _ i _ (List.getElem?_eq_getElem hi),
      wakeAt_of_getElem? _ j _ (List.getElem?_eq_getElem hj)] at this
    exact this


/-! ## The scheduler loop: invariants -/

theorem LoopInv_init : LoopInv LoopState.init := by
  refine ⟨by simp [LoopState.init], ?_, ?_⟩ <;> simp [LoopState.init]

theorem Add_length (srt : sleeperQueue → sleeperQueue) (hs : SortContract srt)
    (t : sleeperQueue) (a : scheduledToSleep) :
    (sleeperQueue.Add srt t a).length = t.length + 1 := by
  unfold sleeperQueue.Add
  rw [(hs.perm (t ++ [a])).length_eq]
  simp

theorem loopSwitch_mid (srt : sleeperQueue → sleeperQueue) (hs : SortContract srt)
    (s s1 : LoopState) (req : Request) (acts : List Action)
    (hinv : LoopInv s) (hsw : loopSwitch srt s req = .ok (s1, acts)) : MidInv s1 := by
  obtain ⟨h0, hT, hF⟩ := hinv
  cases req with
  | requestSleep duration resp =>
    simp only [loopSwitch] at hsw
    split at hsw
    · cases hsw
    · rename_i hc
      injection hsw with hsw
      injection hsw with h1 _
      subst h1
      have hn : 1 ≤ s.ntogo := by
        by_contra hlt
        exact hc (Or.inl (by omega))
      refine ⟨h0, ?_, ?_⟩
      · intro hf
        have := hT hf
        simp only [Add_length srt hs]
        push_cast
        omega
      · intro hf
        have := (hF hf).2
        omega
  | requestNow resp =>
    simp only [loopSwitch] at hsw
    injection hsw with hsw
    injection hsw with h1 _
    subst h1
    exact ⟨h0, fun hf => le_of_lt (hT hf), hF⟩
  | requestGo =>
    simp only [loopSwitch] at hsw
    injection hsw with hsw
    injection hsw with h1 _
    subst h1
    refine ⟨by simp only; omega, ?_, ?_⟩
    · intro _
      simp only
      cases hg : s.goroutinesForked with
      | true => have := hT hg; omega
      | false => have := hF hg; simp [this.1]; omega
    · intro hf
      simp at hf
  | requestDie =>
    simp only [loopSwitch] at hsw
    split at hsw
    · cases hsw
    · rename_i hc
      injection hsw with hsw
      injection hsw with h1 _
      subst h1
      refine ⟨by simp only; omega, ?_, ?_⟩
      · intro hf
        have := hT hf
        simp only
        omega
      · intro hf
        have := (hF hf).2
        simp only at hf ⊢
        omega
  | unknown =>
    simp only [loopSwitch] at hsw
    cases hsw

theorem loopBody_cases (srt : sleeperQueue → sleeperQueue) (s : LoopState) (req : Request)
    (acts : List Action) (st : Status) (h : loopBody srt s req = (acts, st)) :
    (∃ msg, loopSwitch srt s req = .error msg ∧ acts = [] ∧ st = .panic msg) ∨
    (∃ s1 a1, loopSwitch srt s req = .ok (s1, a1) ∧
      acts = a1 ++ (loopWake s1).1 ∧ st = (loopWake s1).2) := by
  unfold loopBody at h
  split at h
  · rename_i msg hm
    left
    refine ⟨msg, hm, ?_, ?_⟩
    · exact (congrArg Prod.fst h).symm
    · exact (congrArg Prod.snd h).symm
  · rename_i s1 a1 hm
    right
    refine ⟨s1, a1, hm, ?_, ?_⟩
    · exact (congrArg Prod.fst h).symm
    · exact (congrArg Prod.snd h).symm

theorem loopWake_running (s1 s2 : LoopState) (acts : List Action)
    (h : loopWake s1 = (acts, .running s2)) :
    (s2 = s1 ∧ acts = [] ∧
      (s1.goroutinesForked = false ∨ sleeperQueue.Len s1.sleepers < s1.ntogo)) ∨
    (∃ q rest, s1.sleepers = q :: rest ∧ s1.goroutinesForked = true ∧
      ¬ sleeperQueue.Len s1.sleepers < s1.ntogo ∧ s1.now ≤ q.wake ∧
      s2 = { s1 with sleepers := rest, now := q.wake } ∧ acts = [Action.wake q.resp]) := by
  unfold loopWake at h
  split at h
  · rename_i hc
    left
    simp only [Prod.mk.injEq, Status.running.injEq] at h
    refine ⟨h.2.symm, h.1.symm, ?_⟩
    simpa using hc
  · rename_i hc
    have hc1 : s1.goroutinesForked = true ∧ ¬ sleeperQueue.Len s1.sleepers < s1.ntogo := by
      simpa using hc
    cases hq : s1.sleepers with
    | nil =>
      simp [hq, sleeperQueue.DeleteMin] at h
    | cons q rest =>
      right
      simp only [hq, sleeperQueue.DeleteMin] at h
      split at h
      · simp at h
      · rename_i hlt
        simp only [Prod.mk.injEq, Status.running.injEq] at h
        refine ⟨q, rest, rfl, hc1.1, ?_, by omega, h.2.symm, h.1.symm⟩
        rw [← hq]
        exact hc1.2

theorem loopWake_done (s1 s2 : LoopState) (acts : List Action)
    (h : loopWake s1 = (acts, .done s2)) :
    s1.sleepers = [] ∧ s1.goroutinesForked = true ∧
      ¬ sleeperQueue.Len s1.sleepers < s1.ntogo ∧ s2 = s1 ∧ acts = [] := by
  unfold loopWake at h
  split at h
  · simp at h
  · rename_i hc
    have hc1 : s1.goroutinesForked = true ∧ ¬ sleeperQueue.Len s1.sleepers < s1.ntogo := by
      simpa using hc
    cases hq : s1.sleepers with
    | nil =>
      simp only [hq, sleeperQueue.DeleteMin, Prod.mk.injEq, Status.done.injEq] at h
      refine ⟨rfl, hc1.1, ?_, ?_, h.1.symm⟩
      · rw [← hq]; exact hc1.2
      · rw [← h.2, ← hq]
    | cons q rest =>
      simp only [hq, sleeperQueue.DeleteMin] at h
      split at h <;> simp at h

theorem loopWake_inv (s1 s2 : LoopState) (acts : List Action) (hmid : MidInv s1)
    (h : loopWake s1 = (acts, .running s2)) : LoopInv s2 := by
  obtain ⟨h0, hT, hF⟩ := hmid
  rcases loopWake_running s1 s2 acts h with ⟨rfl, -, hc⟩ | ⟨q, rest, hq, hf, hc, -, rfl, -⟩
  · refine ⟨h0, ?_, hF⟩
    intro hf
    rcases hc with hc | hc
    · rw [hf] at hc; cases hc
    · simpa [sleeperQueue.Len] using hc
  · have hle := hT hf
    simp only [sleeperQueue.Len, hq, List.length_cons] at hc hle
    refine ⟨h0, ?_, ?_⟩
    · intro _
      simp only
      push_cast at hc hle
      omega
    · intro hf2
      simp only at hf2
      rw [hf] at hf2
      cases hf2

theorem loopBody_inv (srt : sleeperQueue → sleeperQueue) (hs : SortContract srt)
    (s s2 : LoopState) (req : Request) (acts : List Action) (hinv : LoopInv s)
    (h : loopBody srt s req = (acts, .running s2)) : LoopInv s2 := by
  rcases loopBody_cases srt s req acts _ h with ⟨msg, -, -, hst⟩ | ⟨s1, a1, hsw, -, hst⟩
  · cases hst
  · have hmid := loopSwitch_mid srt hs s s1 req a1 hinv hsw
    exact loopWake_inv s1 s2 (loopWake s1).1 hmid (by rw [hst])

theorem loopFrom_cons_running (srt : sleeperQueue → sleeperQueue) (s s2 : LoopState)
    (req : Request) (rest : List Request) (acts : List Action)
    (h : loopFrom srt s (req :: rest) = (acts, .running s2)) :
    ∃ a1 s1 a2, loopBody srt s req = (a1, .running s1) ∧
      loopFrom srt s1 rest = (a2, .running s2) ∧ acts = a1 ++ a2 := by
  simp only [loopFrom] at h
  split at h
  · rename_i a1 s1 hb
    refine ⟨a1, s1, (loopFrom srt s1 rest).1, hb, ?_, ?_⟩
    · have := congrArg Prod.snd h
      simp only at this
      rw [← this]
    · exact (congrArg Prod.fst h).symm
  · rename_i a1 st hne hb
    simp only [Prod.mk.injEq] at h
    obtain ⟨h1, h2⟩ := h
    subst h2
    exact absurd rfl (hne s2)

theorem loopFrom_inv (srt : sleeperQueue → sleeperQueue) (hs : SortContract srt)
    (reqs : List Request) : ∀ (s s2 : LoopState) (acts : List Action), LoopInv s →
    loopFrom srt s reqs = (acts, .running s2) → LoopInv s2 := by
  induction reqs with
  | nil =>
    intro s s2 acts hinv h
    simp only [loopFrom, Prod.mk.injEq, Status.running.injEq] at h
    rw [← h.2]; exact hinv
  | cons req rest ih =>
    intro s s2 acts hinv h
    obtain ⟨a1, s1, a2, hb, hr, -⟩ := loopFrom_cons_running srt s s2 req rest acts h
    exact ih s1 s2 a2 (loopBody_inv srt hs s s1 req a1 hinv hb) hr

theorem loopFrom_snoc (srt : sleeperQueue → sleeperQueue) (reqs : List Request) :
    ∀ (s s1 : LoopState) (acts : List Action) (req : Request),
    loopFrom srt s reqs = (acts, .running s1) →
    loopFrom srt s (reqs ++ [req]) =
      (acts ++ (loopBody srt s1 req).1, (loopBody srt s1 req).2) := by
  induction reqs with
  | nil =>
    intro s s1 acts req h
    simp only [loopFrom, Prod.mk.injEq, Status.running.injEq] at h
    obtain ⟨rfl, rfl⟩ := h
    simp only [List.nil_append, loopFrom]
    split
    · rename_i a1 s2 hb
      simp [hb]
    · rename_i a1 st hne hb
      simp [hb]
  | cons r rest ih =>
    intro s s1 acts req h
    obtain ⟨a1, s2, a2, hb, hr, rfl⟩ := loopFrom_cons_running srt s s1 r rest acts h
    have := ih s2 s1 a2 req hr
    show loopFrom srt s (r :: (rest ++ [req])) = _
    simp only [loopFrom, hb, this, List.append_assoc]

theorem loopSwitch_forked (srt : sleeperQueue → sleeperQueue) (s s1 : LoopState)
    (req : Request) (a1 : List Action) (h : loopSwitch srt s req = .ok (s1, a1)) :
    (s1.goroutinesForked = true ↔ (s.goroutinesForked = true ∨ req = .requestGo)) ∧
    s1.now = s.now ∧ (∀ x ∈ nowReplies a1, x = s.now) := by
  cases req with
  | requestSleep duration resp =>
    simp only [loopSwitch] at h
    split at h
    · cases h
    · injection h with h
      injection h with h1 h2
      subst h1; subst h2
      simp [nowReplies]
  | requestNow resp =>
    simp only [loopSwitch] at h
    injection h with h
    injection h with h1 h2
    subst h1; subst h2
    simp [nowReplies]
  | requestGo =>
    simp only [loopSwitch] at h
    injection h with h
    injection h with h1 h2
    subst h1; subst h2
    simp [nowReplies]
  | requestDie =>
    simp only [loopSwitch] at h
    split at h
    · cases h
    · injection h with h
      injection h with h1 h2
      subst h1; subst h2
      simp [nowReplies]
  | unknown =>
    simp only [loopSwitch] at h
    cases h

theorem loopWake_now (s1 : LoopState) :
    nowReplies (loopWake s1).1 = [] ∧
    ∀ s2, ((loopWake s1).2 = .running s2 ∨ (loopWake s1).2 = .done s2) →
      s1.now ≤ s2.now ∧ s2.goroutinesForked = s1.goroutinesForked := by
  unfold loopWake
  split
  · refine ⟨rfl, ?_⟩
    intro s2 h
    simp only [Status.running.injEq, reduceCtorEq, or_false] at h
    subst h
    exact ⟨le_refl _, rfl⟩
  · cases hq : s1.sleepers with
    | nil =>
      simp only [sleeperQueue.DeleteMin]
      refine ⟨rfl, ?_⟩
      intro s2 h
      simp only [reduceCtorEq, Status.done.injEq, false_or] at h
      subst h
      exact ⟨le_refl _, rfl⟩
    | cons q rest =>
      simp only [sleeperQueue.DeleteMin]
      split
      · refine ⟨rfl, ?_⟩
        intro s2 h
        simp at h
      · rename_i hlt
        refine ⟨rfl, ?_⟩
        intro s2 h
        simp only [Status.running.injEq, reduceCtorEq, or_false] at h
        subst h
        simp only [and_true]
        omega

theorem loopBody_now (srt : sleeperQueue → sleeperQueue) (s : LoopState) (req : Request)
    (acts : List Action) (st : Status) (h : loopBody srt s req = (acts, st)) :
    (∀ x ∈ nowReplies acts, x = s.now) ∧
    ∀ s2, (st = .running s2 ∨ st = .done s2) →
      s.now ≤ s2.now ∧
      (s2.goroutinesForked = true ↔ (s.goroutinesForked = true ∨ req = .requestGo)) := by
  have happ : ∀ a b : List Action, nowReplies (a ++ b) = nowReplies a ++ nowReplies b := by
    intro a b
    induction a with
    | nil => rfl
    | cons x xs ih => cases x <;> simp [nowReplies, ih]
  rcases loopBody_cases srt s req acts st h with ⟨msg, -, ha, hst⟩ | ⟨s1, a1, hsw, ha, hst⟩
  · subst ha; subst hst
    refine ⟨by simp [nowReplies], ?_⟩
    intro s2 h2
    simp at h2
  · obtain ⟨hf, hn, hr⟩ := loopSwitch_forked srt s s1 req a1 hsw
    obtain ⟨hw1, hw2⟩ := loopWake_now s1
    subst ha; subst hst
    refine ⟨?_, ?_⟩
    · intro x hx
      rw [happ, hw1, List.append_nil] at hx
      exact hr x hx
    · intro s2 h2
      obtain ⟨h3, h4⟩ := hw2 s2 h2
      refine ⟨by omega, ?_⟩
      rw [h4]; exact hf

theorem nowReplies_append (a b : List Action) :
    nowReplies (a ++ b) = nowReplies a ++ nowReplies b := by
  induction a with
  | nil => rfl
  | cons x xs ih => cases x <;> simp [nowReplies, ih]

theorem loopFrom_replies (srt : sleeperQueue → sleeperQueue) (reqs : List Request) :
    ∀ (s : LoopState), (nowReplies (loopFrom srt s reqs).1).Pairwise (fun x y => x ≤ y) ∧
      ∀ x ∈ nowReplies (loopFrom srt s reqs).1, s.now ≤ x := by
  induction reqs with
  | nil =>
    intro s
    simp [loopFrom, nowReplies]
  | cons req rest ih =>
    intro s
    rcases hb : loopBody srt s req with ⟨a1, st⟩
    obtain ⟨hb1, hb2⟩ := loopBody_now srt s req a1 st hb
    have hsame : (nowReplies a1).Pairwise (fun x y => x ≤ y) := by
      rw [List.pairwise_iff_forall_sublist]
      intro x y hxy
      have hx := hb1 x (hxy.subset (by simp))
      have hy := hb1 y (hxy.subset (by simp))
      omega
    cases st with
    | running s1 =>
      obtain ⟨hle, -⟩ := hb2 s1 (Or.inl rfl)
      obtain ⟨ih1, ih2⟩ := ih s1
      simp only [loopFrom, hb, nowReplies_append]
      refine ⟨?_, ?_⟩
      · rw [List.pairwise_append]
        refine ⟨hsame, ih1, ?_⟩
        intro x hx y hy
        have := hb1 x hx
        have := ih2 y hy
        omega
      · intro x hx
        rcases List.mem_append.mp hx with hx | hx
        · exact le_of_eq (hb1 x hx).symm
        · exact le_trans hle (ih2 x hx)
    | done s1 =>
      simp only [loopFrom, hb]
      exact ⟨hsame, fun x hx => le_of_eq (hb1 x hx).symm⟩
    | panic msg =>
      simp only [loopFrom, hb]
      exact ⟨hsame, fun x hx => le_of_eq (hb1 x hx).symm⟩

theorem loopFrom_forked (srt : sleeperQueue → sleeperQueue) (reqs : List Request) :
    ∀ (s s2 : LoopState) (acts : List Action), loopFrom srt s reqs = (acts, .running s2) →
    (s2.goroutinesForked = true ↔ (s.goroutinesForked = true ∨ Request.requestGo ∈ reqs)) := by
  induction reqs with
  | nil =>
    intro s s2 acts h
    simp only [loopFrom, Prod.mk.injEq, Status.running.injEq] at h
    rw [← h.2]; simp
  | cons req rest ih =>
    intro s s2 acts h
    obtain ⟨a1, s1, a2, hb, hr, -⟩ := loopFrom_cons_running srt s s2 req rest acts h
    have h1 := ((loopBody_now srt s req a1 _ hb).2 s1 (Or.inl rfl)).2
    rw [ih s1 s2 a2 hr, h1, List.mem_cons]
    constructor
    · rintro ((h | h) | h)
      · exact Or.inl h
      · exact Or.inr (Or.inl h.symm)
      · exact Or.inr (Or.inr h)
    · rintro (h | h | h)
      · exact Or.inl (Or.inl h)
      · exact Or.inl (Or.inr h.symm)
      · exact Or.inr h

/-! ## The scheduler loop: what a run guarantees -/

/-- C1: in a run of `SyntheticRuntime.loop` from its initial state that has not
panicked, whenever the request just handled lets the loop go past the `continue`
test and `DeleteMin` hands out a sleeper `q`, the number of queued sleepers right
before that pop equals `ntogo` (it is never larger), and the pass either wakes
`q` and sets the clock to its wake time or stops at the check on that time. -/
theorem pop_only_when_all_asleep (srt : sleeperQueue → sleeperQueue) (hs : SortContract srt)
    (reqs : List Request) (acts : List Action) (s : LoopState) (req : Request)
    (s1 : LoopState) (a1 : List Action) (q : scheduledToSleep) (rest : sleeperQueue)
    (hrun : SyntheticRuntime.loop srt reqs = (acts, .running s))
    (hsw : loopSwitch srt s req = .ok (s1, a1))
    (hgo : (!s1.goroutinesForked || decide (sleeperQueue.Len s1.sleepers < s1.ntogo)) = false)
    (hpop : sleeperQueue.DeleteMin s1.sleepers = (some q, rest)) :
    sleeperQueue.Len s1.sleepers = s1.ntogo ∧
      (loopWake s1 = ([Action.wake q.resp],
          .running { s1 with sleepers := rest, now := q.wake }) ∨
        loopWake s1 = ([], .panic "waking in the past")) := by
  have hinv := loopFrom_inv srt hs reqs LoopState.init s acts LoopInv_init hrun
  obtain ⟨h0, hT, hF⟩ := loopSwitch_mid srt hs s s1 req a1 hinv hsw
  have hc : s1.goroutinesForked = true ∧ ¬ sleeperQueue.Len s1.sleepers < s1.ntogo := by
    simpa using hgo
  have hle := hT hc.1
  have hlen : sleeperQueue.Len s1.sleepers = s1.ntogo := by
    have := hc.2
    simp only [sleeperQueue.Len] at this ⊢
    omega
  refine ⟨hlen, ?_⟩
  unfold loopWake
  rw [hgo, hpop]
  by_cases hlt : q.wake < s1.now
  · right
    simp [hlt]
  · left
    simp [hlt]

theorem pop_only_when_all_asleep_witness :
    sleeperQueue.Len [({ wake := 5, resp := 0 } : scheduledToSleep)] = 1 ∧
      (loopWake { sleepers := [{ wake := 5, resp := 0 }], now := 0, ntogo := 1,
                  goroutinesForked := true } =
          ([Action.wake 0],
            .running { sleepers := [], now := 5, ntogo := 1, goroutinesForked := true }) ∨
        loopWake { sleepers := [{ wake := 5, resp := 0 }], now := 0, ntogo := 1,
                   goroutinesForked := true } = ([], .panic "waking in the past")) :=
  pop_only_when_all_asleep sortSort sortSort_contract [.requestGo] []
    { sleepers := [], now := 0, ntogo := 1, goroutinesForked := true }
    (.requestSleep 5 0)
    { sleepers := [{ wake := 5, resp := 0 }], now := 0, ntogo := 1, goroutinesForked := true }
    [] { wake := 5, resp := 0 } [] (by decide) rfl (by decide) (by decide)

/-- C4: virtual time never decreases. Whatever the state and the request, a pass
through the loop body that does not panic leaves `now` at least as large as it
found it; hence, in every run from the initial state, the times sent in answer
to the `requestNow` messages are non-decreasing in the order of the requests. -/
theorem virtual_time_never_decreases (srt : sleeperQueue → sleeperQueue)
    (reqs : List Request) :
    (∀ (s s2 : LoopState) (req : Request) (acts : List Action),
      (loopBody srt s req = (acts, .running s2) ∨ loopBody srt s req = (acts, .done s2)) →
        s.now ≤ s2.now) ∧
    (nowReplies (SyntheticRuntime.loop srt reqs).1).Pairwise (fun x y => x ≤ y) := by
  refine ⟨?_, (loopFrom_replies srt reqs LoopState.init).1⟩
  intro s s2 req acts h
  rcases h with h | h
  · exact ((loopBody_now srt s req acts _ h).2 s2 (Or.inl rfl)).1
  · exact ((loopBody_now srt s req acts _ h).2 s2 (Or.inr rfl)).1

/-- C7: in a run of `SyntheticRuntime.loop` from its initial state that is still
going after the requests `reqs`, the next request `req` ends the loop exactly
when a `requestGo` is among the requests seen so far (`req` included) and
`ntogo` is 0 once `req` is handled; the run over `reqs ++ [req]` is then `done`,
and the sleeper queue is empty at that point. -/
theorem loop_ends_when_last_goroutine_dies (srt : sleeperQueue → sleeperQueue)
    (hs : SortContract srt) (reqs : List Request) (acts : List Action) (s : LoopState)
    (req : Request) (hrun : SyntheticRuntime.loop srt reqs = (acts, .running s)) :
    ((∃ a2 s2, loopBody srt s req = (a2, .done s2)) ↔
      (Request.requestGo ∈ reqs ++ [req] ∧
        ∃ s1 a1, loopSwitch srt s req = .ok (s1, a1) ∧ s1.ntogo = 0)) ∧
    (∀ a2 s2, loopBody srt s req = (a2, .done s2) →
      s2.sleepers = [] ∧ SyntheticRuntime.loop srt (reqs ++ [req]) = (acts ++ a2, .done s2)) := by
  have hinv := loopFrom_inv srt hs reqs LoopState.init s acts LoopInv_init hrun
  have hfk := loopFrom_forked srt reqs LoopState.init s acts hrun
  simp only [LoopState.init, Bool.false_eq_true, false_or] at hfk
  refine ⟨⟨?_, ?_⟩, ?_⟩
  · rintro ⟨a2, s2, hb⟩
    rcases loopBody_cases srt s req a2 _ hb with ⟨msg, -, -, hst⟩ | ⟨s1, a1, hsw, -, hst⟩
    · cases hst
    · obtain ⟨h0, hT, hF⟩ := loopSwitch_mid srt hs s s1 req a1 hinv hsw
      have hw : loopWake s1 = ((loopWake s1).1, .done s2) := by rw [hst]
      obtain ⟨hq, hf, hc, -, -⟩ := loopWake_done s1 s2 _ hw
      have hf1 := (loopSwitch_forked srt s s1 req a1 hsw).1
      refine ⟨?_, s1, a1, hsw, ?_⟩
      · rw [List.mem_append, List.mem_singleton]
        rcases hf1.mp hf with h | h
        · exact Or.inl (hfk.mp h)
        · exact Or.inr h.symm
      · simp only [sleeperQueue.Len, hq, List.length_nil] at hc
        push_cast at hc
        omega
  · rintro ⟨hgo, s1, a1, hsw, hn⟩
    obtain ⟨h0, hT, hF⟩ := loopSwitch_mid srt hs s s1 req a1 hinv hsw
    have hf1 := (loopSwitch_forked srt s s1 req a1 hsw).1
    have hf : s1.goroutinesForked = true := by
      rw [hf1]
      rw [List.mem_append, List.mem_singleton] at hgo
      rcases hgo with h | h
      · exact Or.inl (hfk.mpr h)
      · exact Or.inr h.symm
    have hq : s1.sleepers = [] := by
      have := hT hf
      rw [hn] at this
      have h2 : s1.sleepers.length = 0 := by omega
      exact List.length_eq_zero.mp h2
    refine ⟨a1, s1, ?_⟩
    obtain ⟨sl, nw, nt, gf⟩ := s1
    simp only at hf hq hn
    subst hf hq hn
    simp [loopBody, hsw, loopWake, sleeperQueue.Len, sleeperQueue.DeleteMin]
  · intro a2 s2 hb
    have hsn := loopFrom_snoc srt reqs LoopState.init s acts req hrun
    rw [hb] at hsn
    refine ⟨?_, hsn⟩
    rcases loopBody_cases srt s req a2 _ hb with ⟨msg, -, -, hst⟩ | ⟨s1, a1, hsw, -, hst⟩
    · cases hst
    · have hw : loopWake s1 = ((loopWake s1).1, .done s2) := by rw [hst]
      obtain ⟨hq, -, -, h2, -⟩ := loopWake_done s1 s2 _ hw
      rw [h2]; exact hq

theorem loop_ends_when_last_goroutine_dies_witness :
    ((∃ a2 s2, loopBody sortSort
        { sleepers := [], now := 0, ntogo := 1, goroutinesForked := true } .requestDie =
          (a2, .done s2)) ↔
      (Request.requestGo ∈ [Request.requestGo] ++ [Request.requestDie] ∧
        ∃ s1 a1, loopSwitch sortSort
          { sleepers := [], now := 0, ntogo := 1, goroutinesForked := true } .requestDie =
            .ok (s1, a1) ∧ s1.ntogo = 0)) ∧
    (∀ a2 s2, loopBody sortSort
        { sleepers := [], now := 0, ntogo := 1, goroutinesForked := true } .requestDie =
          (a2, .done s2) →
      s2.sleepers = [] ∧
        SyntheticRuntime.loop sortSort ([Request.requestGo] ++ [Request.requestDie]) =
          ([] ++ a2, .done s2)) :=
  loop_ends_when_last_goroutine_dies sortSort sortSort_contract [.requestGo] []
    { sleepers := [], now := 0, ntogo := 1, goroutinesForked := true } .requestDie (by decide)

/-- C3: a `requestSleep` that passes the check of the loop (live count 1,
duration `maxInt64`, which is not negative) is queued with a wake time before the
current virtual time. After `requestGo` and a sleep of 1 ns the clock stands at 1;
`now + duration` then wraps to the least `int64`, the sleeper is queued with
that wake time, and the pass that pops it stops with "waking in the past". -/
theorem sleep_wake_wraps_into_the_past :
    loopFrom sortSort LoopState.init [.requestGo, .requestSleep 1 0] =
      ([Action.wake 0],
        .running { sleepers := [], now := 1, ntogo := 1, goroutinesForked := true }) ∧
    loopSwitch sortSort
        { sleepers := [], now := 1, ntogo := 1, goroutinesForked := true }
        (.requestSleep maxInt64 1) =
      .ok ({ sleepers := [{ wake := -(2 ^ 63), resp := 1 }], now := 1, ntogo := 1,
             goroutinesForked := true }, []) ∧
    SyntheticRuntime.loop sortSort
        [.requestGo, .requestSleep 1 0, .requestSleep maxInt64 1] =
      ([Action.wake 0], .panic "waking in the past") := by
  refine ⟨by decide, rfl, by decide⟩

/-! ## The sleeper queue -/

theorem queueStep_sorted (srt : sleeperQueue → sleeperQueue) (hs : SortContract srt)
    (t : sleeperQueue) (op : QueueOp) (ht : t.Pairwise (fun a b => a.wake ≤ b.wake)) :
    (queueStep srt t op).Pairwise (fun a b => a.wake ≤ b.wake) := by
  cases op with
  | add a => exact hs.sorted _
  | deleteMin =>
    cases t with
    | nil => simp [queueStep, sleeperQueue.DeleteMin]
    | cons q rest => exact (List.pairwise_cons.mp ht).2

theorem queueRun_sorted (srt : sleeperQueue → sleeperQueue) (hs : SortContract srt)
    (ops : List QueueOp) : ∀ t : sleeperQueue, t.Pairwise (fun a b => a.wake ≤ b.wake) →
    (queueRun srt t ops).Pairwise (fun a b => a.wake ≤ b.wake) := by
  induction ops with
  | nil => intro t ht; exact ht
  | cons op ops ih =>
    intro t ht
    exact ih _ (queueStep_sorted srt hs t op ht)

/-- C6: after every sequence of `Add` and `DeleteMin` calls from the empty queue
the queue is sorted ascending by wake; an `Add` leaves the old elements and the
new one; `DeleteMin` on a non-empty queue hands out one element, whose wake is at
most the wake of every element that stays, and what stays is the old multiset
without that element (one element fewer, still sorted); `DeleteMin` on the empty
queue hands out `nil` and leaves it empty. -/
theorem queue_sorted_deleteMin_least (srt : sleeperQueue → sleeperQueue)
    (hs : SortContract srt) (ops : List QueueOp) :
    (queueRun srt [] ops).Pairwise (fun a b => a.wake ≤ b.wake) ∧
    (∀ a, (sleeperQueue.Add srt (queueRun srt [] ops) a).Perm (a :: queueRun srt [] ops)) ∧
    (queueRun srt [] ops = [] →
      sleeperQueue.DeleteMin (queueRun srt [] ops) = (none, [])) ∧
    (queueRun srt [] ops ≠ [] →
      ∃ q rest, sleeperQueue.DeleteMin (queueRun srt [] ops) = (some q, rest) ∧
        rest.length + 1 = (queueRun srt [] ops).length ∧
        (rest : Multiset scheduledToSleep) =
          (queueRun srt [] ops : Multiset scheduledToSleep).erase q ∧
        (∀ x ∈ rest, q.wake ≤ x.wake) ∧
        rest.Pairwise (fun a b => a.wake ≤ b.wake)) := by
  have hsorted := queueRun_sorted srt hs ops [] List.Pairwise.nil
  refine ⟨hsorted, ?_, ?_, ?_⟩
  · intro a
    unfold sleeperQueue.Add
    exact (hs.perm _).trans (List.perm_append_comm)
  · intro h
    rw [h]; rfl
  · intro h
    cases ht : queueRun srt [] ops with
    | nil => exact absurd ht h
    | cons q rest =>
      rw [ht] at hsorted
      refine ⟨q, rest, rfl, rfl, ?_, (List.pairwise_cons.mp hsorted).1,
        (List.pairwise_cons.mp hsorted).2⟩
      rw [Multiset.coe_erase, List.erase_cons_head]

theorem queue_sorted_deleteMin_least_witness :
    (queueRun sortSort []
        [.add { wake := 7, resp := 0 }, .add { wake := 3, resp := 1 }]).Pairwise
      (fun a b => a.wake ≤ b.wake) :=
  (queue_sorted_deleteMin_least sortSort sortSort_contract
    [.add { wake := 7, resp := 0 }, .add { wake := 3, resp := 1 }]).1

/-! ## The order of sleepers of equal wake time -/

theorem stableSort_contract : SortContract stableSort := by
  haveI : IsTotal scheduledToSleep (fun a b => a.wake ≤ b.wake) := ⟨fun a b => le_total _ _⟩
  haveI : IsTrans scheduledToSleep (fun a b => a.wake ≤ b.wake) :=
    ⟨fun a b c hab hbc => le_trans hab hbc⟩
  constructor
  · intro t
    exact List.perm_insertionSort _ t
  · intro t
    exact List.sorted_insertionSort _ t

theorem orderedInsert_filter (w : Int) (a : scheduledToSleep) (l : sleeperQueue) :
    (l.orderedInsert (fun a b => a.wake ≤ b.wake) a).filter (fun x => decide (x.wake = w)) =
      (a :: l).filter (fun x => decide (x.wake = w)) := by
  induction l with
  | nil => simp [List.orderedInsert]
  | cons b l ih =>
    simp only [List.orderedInsert]
    split
    · rfl
    · rename_i hnot
      have hlt : b.wake < a.wake := by omega
      rw [List.filter_cons, ih]
      by_cases ha : a.wake = w
      · have hb : ¬ b.wake = w := by omega
        simp [List.filter_cons, ha, hb]
      · simp [List.filter_cons, ha]

theorem stableSort_stable : SortStable stableSort := by
  intro t w
  induction t with
  | nil => rfl
  | cons a l ih =>
    simp only [stableSort, List.insertionSort] at ih ⊢
    rw [orderedInsert_filter, List.filter_cons, List.filter_cons, ih]

theorem reversingSort_contract : SortContract reversingSort := by
  constructor
  · intro t
    exact (stableSort_contract.perm t.reverse).trans (List.reverse_perm t)
  · intro t
    exact stableSort_contract.sorted t.reverse

theorem fifo_from_stable (srt : sleeperQueue → sleeperQueue) (hst : SortStable srt)
    (ops : List QueueOp) :
    ∀ (t : sleeperQueue) (w : Int),
      (queueReturned srt t ops).filter (fun x => decide (x.wake = w)) <+:
        t.filter (fun x => decide (x.wake = w)) ++
          (queueAdded ops).filter (fun x => decide (x.wake = w)) := by
  induction ops with
  | nil =>
    intro t w
    simp [queueReturned]
  | cons op ops ih =>
    intro t w
    cases op with
    | add a =>
      have := ih (sleeperQueue.Add srt t a) w
      simp only [sleeperQueue.Add] at this
      rw [hst (t ++ [a]) w, List.filter_append] at this
      simp only [queueReturned, queueAdded, sleeperQueue.Add]
      have hcons : (a :: queueAdded ops).filter (fun x => decide (x.wake = w)) =
          [a].filter (fun x => decide (x.wake = w)) ++
            (queueAdded ops).filter (fun x => decide (x.wake = w)) := by
        rw [← List.filter_append]; rfl
      rw [hcons, ← List.append_assoc]
      exact this
    | deleteMin =>
      cases t with
      | nil =>
        have := ih [] w
        simpa [queueReturned, queueAdded, sleeperQueue.DeleteMin] using this
      | cons q rest =>
        have := ih rest w
        simp only [queueReturned, queueAdded, sleeperQueue.DeleteMin]
        by_cases hq : q.wake = w
        · simp only [List.filter, hq, decide_True, List.cons_append]
          exact (List.prefix_cons_inj q).mpr this
        · simp only [List.filter, hq, decide_False]
          exact this

/-- C5, as the code has it: the queue is ordered by `sort.Sort`, which compares
wake times only, so sleepers of equal wake time leave the queue in the order in
which the sort leaves them. Whenever the sort is stable, that is the order in
which they were added, in every sequence of `Add` and `DeleteMin` calls. -/
theorem fifo_when_sort_stable (srt : sleeperQueue → sleeperQueue) (hst : SortStable srt)
    (ops : List QueueOp) : FifoOrder srt ops := by
  intro w
  have := fifo_from_stable srt hst ops [] w
  simpa using this

theorem fifo_when_sort_stable_witness :
    FifoOrder stableSort
      [.add { wake := 4, resp := 0 }, .add { wake := 4, resp := 1 },
       .add { wake := 2, resp := 2 }, .deleteMin, .deleteMin, .deleteMin] :=
  fifo_when_sort_stable stableSort stableSort_stable _

/-- C5, as stated, fails: `Less` compares wake times only and `sort.Sort` does
not promise to be stable. Under a sort that does all the library promises, two
sleepers that both wake at 5 leave the queue in the opposite order of their
addition: the one added second (`resp` 1) is handed out first. -/
theorem fifo_broken_by_unstable_sort :
    SortContract reversingSort ∧
    queueReturned reversingSort []
        [.add { wake := 5, resp := 0 }, .add { wake := 5, resp := 1 },
         .deleteMin, .deleteMin] =
      [{ wake := 5, resp := 1 }, { wake := 5, resp := 0 }] ∧
    ¬ FifoOrder reversingSort
        [.add { wake := 5, resp := 0 }, .add { wake := 5, resp := 1 },
         .deleteMin, .deleteMin] := by
  refine ⟨reversingSort_contract, by decide, ?_⟩
  intro h
  have h5 := h 5
  revert h5
  decide

/-! ## The quiescent-termination scenario -/

theorem scenarioCheck_sound (n : Nat) :
    ∀ (c : Scenario), scenarioCheck n c = true →
      ∀ (sched : List Task) (c2 : Scenario), scenarioRun c sched = some c2 →
        (∀ k, scenarioStep c2 k = none) → scenarioGood c2 = true := by
  induction n with
  | zero => intro c h; simp [scenarioCheck] at h
  | succ n ih =>
    intro c h sched c2 hrun hmax
    cases sched with
    | nil =>
      simp only [scenarioRun, Option.some.injEq] at hrun
      subst hrun
      simp only [scenarioCheck, List.filterMap, hmax] at h
      exact h
    | cons k sched =>
      simp only [scenarioRun] at hrun
      cases hk : scenarioStep c k with
      | none => simp [hk] at hrun
      | some c1 =>
        simp only [hk] at hrun
        have hmem : c1 ∈ [Task.root, Task.first, Task.second].filterMap (scenarioStep c) := by
          rw [List.mem_filterMap]
          exact ⟨k, by cases k <;> simp, hk⟩
        simp only [scenarioCheck] at h
        split at h
        · rename_i hnil
          rw [hnil] at hmem
          cases hmem
        · rw [List.all_eq_true] at h
          exact ih c1 (h c1 hmem) sched c2 hrun hmax

set_option maxRecDepth 1000000 in
/-- C8: the program in which the root goroutine spawns two goroutines and
returns, each of the two sleeping `1e9` ns once and returning. Whatever the order
in which the goroutines get to send their requests (each one in its own program
order, a sleeper sending `requestDie` only once the loop has woken it), when no
goroutine can send any more the loop has left its `for` with `now = 1e9` and an
empty sleeper queue, that is the result of `SyntheticRuntime.loop` on the
requests it received, and every goroutine has run to its end. -/
theorem two_sleepers_end_at_one_second (sched : List Task) (c : Scenario)
    (hrun : scenarioRun scenarioInit sched = some c)
    (hmax : ∀ k, scenarioStep c k = none) :
    ∃ s, c.status = .done s ∧ s.now = 1000000000 ∧ s.sleepers = [] ∧
      SyntheticRuntime.loop sortSort c.reqs = (c.acts, .done s) ∧
      c.rootSent = 3 ∧ c.firstSent = 2 ∧ c.secondSent = 2 := by
  have hgood := scenarioCheck_sound 9 scenarioInit (by decide) sched c hrun hmax
  unfold scenarioGood at hgood
  split at hgood
  · rename_i s hs
    simp only [Bool.and_eq_true, decide_eq_true_eq] at hgood
    exact ⟨s, hs, hgood.1.1.1, hgood.1.1.2, hgood.1.2, hgood.2⟩
  · cases hgood

theorem two_sleepers_end_at_one_second_witness :
    ∃ s, Status.done { sleepers := [], now := 1000000000, ntogo := 0,
                       goroutinesForked := true } = .done s ∧
      s.now = 1000000000 ∧ s.sleepers = [] ∧
      SyntheticRuntime.loop sortSort
        [.requestGo, .requestGo, .requestGo, .requestSleep 1000000000 1, .requestDie,
         .requestSleep 1000000000 2, .requestDie, .requestDie] =
        ([Action.wake 1, Action.wake 2], .done s) ∧
      (3 : Nat) = 3 ∧ (2 : Nat) = 2 ∧ (2 : Nat) = 2 :=
  two_sleepers_end_at_one_second
    [.root, .root, .first, .root, .second, .first, .second]
    { reqs := [.requestGo, .requestGo, .requestGo, .requestSleep 1000000000 1, .requestDie,
               .requestSleep 1000000000 2, .requestDie, .requestDie],
      acts := [Action.wake 1, Action.wake 2],
      status := .done { sleepers := [], now := 1000000000, ntogo := 0,
                        goroutinesForked := true },
      rootSent := 3, firstSent := 2, secondSent := 2 }
    (by decide) (by intro k; cases k <;> rfl)

/-! ## The congestion-control binding -/

theorem writeCCID_eq_ok {σ ρ : Type} (cc : CongestionControls σ ρ)
    (validS validR : List DccpOption → Bool) (c : Conn σ ρ) (h : Header)
    (hS : validS (cc.sccOnWrite c.scc h.Type' h.X h.SeqNo).1.2 = true)
    (hR : validR (cc.rccOnWrite c.rcc h.Type' h.X h.SeqNo).1 = true) :
    Conn.writeCCID cc validS validR c h =
      .ok ({ scc := (cc.sccOnWrite c.scc h.Type' h.X h.SeqNo).2,
             rcc := (cc.rccOnWrite c.rcc h.Type' h.X h.SeqNo).2,
             calls := c.calls ++ [Call.sccOnWrite h.Type' h.X h.SeqNo] ++
               [Call.rccOnWrite h.Type' h.X h.SeqNo] },
           { h with CCVal := (cc.sccOnWrite c.scc h.Type' h.X h.SeqNo).1.1,
                    Options := h.Options ++ ((cc.sccOnWrite c.scc h.Type' h.X h.SeqNo).1.2 ++
                      (cc.rccOnWrite c.rcc h.Type' h.X h.SeqNo).1) }) := by
  simp only [Conn.writeCCID, hS, hR, Bool.not_true, Bool.false_eq_true, if_false]

/-- C9: when the options returned by the sender's `OnWrite` pass `validS` and
those returned by the receiver's pass `validR`, `writeCCID` returns the header
with `CCVal` set to the sender's `ccval` and `Options` equal to the former
options, then the sender's, then the receiver's; `Type`, `X`, `SeqNo`, `AckNo`
and `Data` are unchanged; and the calls made are the sender's `OnWrite` and then
the receiver's, both with `(h.Type, h.X, h.SeqNo)`, each on its own state. -/
theorem writeCCID_result {σ ρ : Type} (cc : CongestionControls σ ρ)
    (validS validR : List DccpOption → Bool) (c : Conn σ ρ) (h : Header)
    (hS : validS (cc.sccOnWrite c.scc h.Type' h.X h.SeqNo).1.2 = true)
    (hR : validR (cc.rccOnWrite c.rcc h.Type' h.X h.SeqNo).1 = true) :
    ∃ c2 h2, Conn.writeCCID cc validS validR c h = .ok (c2, h2) ∧
      h2.CCVal = (cc.sccOnWrite c.scc h.Type' h.X h.SeqNo).1.1 ∧
      h2.Options = h.Options ++ (cc.sccOnWrite c.scc h.Type' h.X h.SeqNo).1.2 ++
        (cc.rccOnWrite c.rcc h.Type' h.X h.SeqNo).1 ∧
      h2.Type' = h.Type' ∧ h2.X = h.X ∧ h2.SeqNo = h.SeqNo ∧ h2.AckNo = h.AckNo ∧
      h2.Data = h.Data ∧
      c2.calls = c.calls ++
        [Call.sccOnWrite h.Type' h.X h.SeqNo, Call.rccOnWrite h.Type' h.X h.SeqNo] ∧
      c2.scc = (cc.sccOnWrite c.scc h.Type' h.X h.SeqNo).2 ∧
      c2.rcc = (cc.rccOnWrite c.rcc h.Type' h.X h.SeqNo).2 := by
  refine ⟨_, _, writeCCID_eq_ok cc validS validR c h hS hR, ?_⟩
  simp

theorem writeCCID_result_witness :
    ∃ c2 h2, Conn.writeCCID sampleControls (validateCCIDSenderToReceiver sampleDir)
        (validateCCIDReceiverToSender sampleDir)
        { scc := 21, rcc := (), calls := [] } sampleHeader = .ok (c2, h2) ∧
      h2.CCVal = 5 ∧
      h2.Options = [{ Type' := 1, Data := [] }] ++ [{ Type' := 128, Data := [21] }] ++
        [{ Type' := 194, Data := [1] }] ∧
      h2.Type' = 2 ∧ h2.X = true ∧ h2.SeqNo = 77 ∧ h2.AckNo = 40 ∧ h2.Data = [] ∧
      c2.calls = [] ++ [Call.sccOnWrite 2 true 77, Call.rccOnWrite 2 true 77] ∧
      c2.scc = 22 ∧ c2.rcc = () :=
  writeCCID_result sampleControls (validateCCIDSenderToReceiver sampleDir)
    (validateCCIDReceiverToSender sampleDir) { scc := 21, rcc := (), calls := [] }
    sampleHeader (by decide) (by decide)

/-- C10: `writeCCID` returns normally exactly when the options of the sender's
`OnWrite` pass `validateCCIDSenderToReceiver` and those of the receiver's pass
`validateCCIDReceiverToSender`, and panics otherwise, the sender's options being
checked first; in a header it returns, the options appended for the sender are
all sender-to-receiver options and those appended for the receiver are all
receiver-to-sender options. -/
theorem writeCCID_returns_iff_directions_valid {σ ρ : Type} (cc : CongestionControls σ ρ)
    (dir : DccpOption → Direction) (c : Conn σ ρ) (h : Header) :
    ((∃ c2 h2, Conn.writeCCID cc (validateCCIDSenderToReceiver dir)
        (validateCCIDReceiverToSender dir) c h = .ok (c2, h2)) ↔
      (validateCCIDSenderToReceiver dir (cc.sccOnWrite c.scc h.Type' h.X h.SeqNo).1.2 = true ∧
        validateCCIDReceiverToSender dir (cc.rccOnWrite c.rcc h.Type' h.X h.SeqNo).1 = true)) ∧
    (validateCCIDSenderToReceiver dir (cc.sccOnWrite c.scc h.Type' h.X h.SeqNo).1.2 = false →
      Conn.writeCCID cc (validateCCIDSenderToReceiver dir)
        (validateCCIDReceiverToSender dir) c h =
        .error "sender congestion control writes disallowed options") ∧
    (validateCCIDSenderToReceiver dir (cc.sccOnWrite c.scc h.Type' h.X h.SeqNo).1.2 = true →
      validateCCIDReceiverToSender dir (cc.rccOnWrite c.rcc h.Type' h.X h.SeqNo).1 = false →
      Conn.writeCCID cc (validateCCIDSenderToReceiver dir)
        (validateCCIDReceiverToSender dir) c h =
        .error "receiver congestion control writes disallowed options") ∧
    (∀ c2 h2, Conn.writeCCID cc (validateCCIDSenderToReceiver dir)
        (validateCCIDReceiverToSender dir) c h = .ok (c2, h2) →
      h2.Options = h.Options ++ (cc.sccOnWrite c.scc h.Type' h.X h.SeqNo).1.2 ++
        (cc.rccOnWrite c.rcc h.Type' h.X h.SeqNo).1 ∧
      (∀ o ∈ (cc.sccOnWrite c.scc h.Type' h.X h.SeqNo).1.2, dir o = .senderToReceiver) ∧
      (∀ o ∈ (cc.rccOnWrite c.rcc h.Type' h.X h.SeqNo).1, dir o = .receiverToSender)) := by
  have key : ∀ c2 h2, Conn.writeCCID cc (validateCCIDSenderToReceiver dir)
      (validateCCIDReceiverToSender dir) c h = .ok (c2, h2) →
      validateCCIDSenderToReceiver dir (cc.sccOnWrite c.scc h.Type' h.X h.SeqNo).1.2 = true ∧
        validateCCIDReceiverToSender dir (cc.rccOnWrite c.rcc h.Type' h.X h.SeqNo).1 = true ∧
        h2.Options = h.Options ++ (cc.sccOnWrite c.scc h.Type' h.X h.SeqNo).1.2 ++
          (cc.rccOnWrite c.rcc h.Type' h.X h.SeqNo).1 := by
    intro c2 h2 hok
    simp only [Conn.writeCCID] at hok
    split at hok
    · cases hok
    · rename_i hS
      split at hok
      · cases hok
      · rename_i hR
        injection hok with hok
        injection hok with _ h2eq
        subst h2eq
        refine ⟨by simpa using hS, by simpa using hR, by simp⟩
  refine ⟨⟨?_, ?_⟩, ?_, ?_, ?_⟩
  · rintro ⟨c2, h2, hok⟩
    exact ⟨(key c2 h2 hok).1, (key c2 h2 hok).2.1⟩
  · rintro ⟨hS, hR⟩
    exact ⟨_, _, writeCCID_eq_ok cc _ _ c h hS hR⟩
  · intro hS
    simp [Conn.writeCCID, hS]
  · intro hS hR
    simp [Conn.writeCCID, hS, hR]
  · intro c2 h2 hok
    obtain ⟨hS, hR, hopt⟩ := key c2 h2 hok
    refine ⟨hopt, ?_, ?_⟩
    · intro o ho
      have := List.all_eq_true.mp hS o ho
      simpa using this
    · intro o ho
      have := List.all_eq_true.mp hR o ho
      simpa using this

/-! ## The `select` of the open phase -/

/-- C2: with a control header waiting on `writeNonData` and a payload waiting on
`writeData`, both cases of the `select` of `Loop_II` can proceed; when the draw
of the run-time system falls on the second of them, the payload is received and
the control header stays in its channel. -/
theorem select_can_take_data_while_control_waits :
    Chan.ready ({ buf := [some sampleHeader], closed := false } : Chan (Option Header)) = true ∧
    Chan.ready ({ buf := [[1, 2, 3]], closed := false } : Chan (List Nat)) = true ∧
    loopIISelect 1 { buf := [some sampleHeader], closed := false }
        { buf := [[1, 2, 3]], closed := false } =
      some (.appData [1, 2, 3] true,
        { buf := [some sampleHeader], closed := false }, { buf := [], closed := false }) := by
  refine ⟨by decide, by decide, by decide⟩

/-! ## The scheduler loop: single requests -/

/-- C20: in every state that a run of `SyntheticRuntime.loop` from the initial
state reaches, a `requestNow` is answered with the current `now` and nothing
else happens: the pass does not pop a sleeper, does not advance the clock, does
not end the loop and leaves `now`, `ntogo`, the flag and the queue as they
were. -/
theorem now_request_only_replies (srt : sleeperQueue → sleeperQueue) (hs : SortContract srt)
    (reqs : List Request) (acts : List Action) (s : LoopState) (resp : Nat)
    (hrun : SyntheticRuntime.loop srt reqs = (acts, .running s)) :
    loopBody srt s (.requestNow resp) = ([Action.reply resp s.now], .running s) ∧
      SyntheticRuntime.loop srt (reqs ++ [.requestNow resp]) =
        (acts ++ [Action.reply resp s.now], .running s) := by
  have hinv := loopFrom_inv srt hs reqs LoopState.init s acts LoopInv_init hrun
  obtain ⟨h0, hT, hF⟩ := hinv
  have hb : loopBody srt s (.requestNow resp) = ([Action.reply resp s.now], .running s) := by
    simp only [loopBody, loopSwitch, loopWake]
    cases hf : s.goroutinesForked with
    | false => simp
    | true =>
      have := hT hf
      simp [sleeperQueue.Len, this]
  refine ⟨hb, ?_⟩
  have := loopFrom_snoc srt reqs LoopState.init s acts (.requestNow resp) hrun
  rw [hb] at this
  exact this

/-- The `switch` alone: its `requestSleep` case panics exactly when the
duration is negative or `ntogo` is below 1, and the `requestDie` case exactly
when `ntogo` is below 1. In every other case the sleep leaves everything but the
queue as it was and adds exactly one sleeper, whose wake time is the `int64` sum
`now + duration` (the sum itself whenever that fits in an `int64`) and whose
`resp` is the one of the request; and the die lowers `ntogo` by exactly one and
leaves the rest as it was. -/
theorem sleep_and_die_fatal_exactly_on_misuse (srt : sleeperQueue → sleeperQueue)
    (hs : SortContract srt) (s : LoopState) (duration : Int) (resp : Nat) :
    ((∃ msg, loopSwitch srt s (.requestSleep duration resp) = .error msg) ↔
      (duration < 0 ∨ s.ntogo < 1)) ∧
    ((∃ msg, loopSwitch srt s .requestDie = .error msg) ↔ s.ntogo < 1) ∧
    (¬ (duration < 0 ∨ s.ntogo < 1) →
      ∃ s1, loopSwitch srt s (.requestSleep duration resp) = .ok (s1, []) ∧
        s1.sleepers.Perm
          ({ wake := wrapInt64 (s.now + duration), resp := resp } :: s.sleepers) ∧
        s1.sleepers.length = s.sleepers.length + 1 ∧
        s1.now = s.now ∧ s1.ntogo = s.ntogo ∧ s1.goroutinesForked = s.goroutinesForked ∧
        (-(2 ^ 63) ≤ s.now + duration → s.now + duration < 2 ^ 63 →
          wrapInt64 (s.now + duration) = s.now + duration)) ∧
    (¬ s.ntogo < 1 →
      loopSwitch srt s .requestDie = .ok ({ s with ntogo := s.ntogo - 1 }, [])) := by
  refine ⟨?_, ?_, ?_, ?_⟩
  · simp only [loopSwitch]
    constructor
    · rintro ⟨msg, h⟩
      split at h
      · rename_i hc; tauto
      · cases h
    · intro h
      rw [if_pos (by tauto)]
      exact ⟨_, rfl⟩
  · simp only [loopSwitch]
    constructor
    · rintro ⟨msg, h⟩
      split at h
      · assumption
      · cases h
    · intro h
      rw [if_pos h]
      exact ⟨_, rfl⟩
  · intro h
    refine ⟨{ s with sleepers := sleeperQueue.Add srt s.sleepers
                          ⟨wrapInt64 (s.now + duration), resp⟩ },
      by simp only [loopSwitch]; rw [if_neg (by tauto)], ?_, ?_, rfl, rfl, rfl, ?_⟩
    · exact (hs.perm _).trans List.perm_append_comm
    · exact Add_length srt hs _ _
    · intro h1 h2
      unfold wrapInt64
      omega
  · intro h
    simp only [loopSwitch]
    rw [if_neg h]

theorem now_request_only_replies_witness :
    loopBody sortSort { sleepers := [], now := 0, ntogo := 1, goroutinesForked := true }
        (.requestNow 9) =
      ([Action.reply 9 0],
        .running { sleepers := [], now := 0, ntogo := 1, goroutinesForked := true }) ∧
    SyntheticRuntime.loop sortSort ([.requestGo] ++ [.requestNow 9]) =
      ([] ++ [Action.reply 9 0],
        .running { sleepers := [], now := 0, ntogo := 1, goroutinesForked := true }) :=
  now_request_only_replies sortSort sortSort_contract [.requestGo] []
    { sleepers := [], now := 0, ntogo := 1, goroutinesForked := true } 9 (by decide)

theorem sleep_and_die_fatal_exactly_on_misuse_witness :
    (∃ msg, loopSwitch sortSort
        { sleepers := [], now := 0, ntogo := 0, goroutinesForked := false }
        (.requestSleep 5 1) = .error msg) ↔ ((5 : Int) < 0 ∨ (0 : Int) < 1) :=
  (sleep_and_die_fatal_exactly_on_misuse sortSort sortSort_contract
    { sleepers := [], now := 0, ntogo := 0, goroutinesForked := false } 5 1).1

/-- C17: a Sleep and a Die that are no misuse are fatal all the same once a wake
time has wrapped. After `requestGo` and a sleep of 1 ns the clock stands at 1
with one live goroutine; the pass for a `requestSleep` of `maxInt64` ns (not
negative, `ntogo` = 1) queues the sleeper with wake time `-2^63` and panics with
"waking in the past". With a second goroutine alive the same sleep is queued
without a pop, and the pass for the `requestDie` that follows (`ntogo` = 2)
panics in the same way. -/
theorem valid_sleep_and_die_panic_after_wrap :
    ¬ (maxInt64 < 0 ∨ (1 : Int) < 1) ∧
    loopFrom sortSort LoopState.init [.requestGo, .requestSleep 1 0] =
      ([Action.wake 0],
        .running { sleepers := [], now := 1, ntogo := 1, goroutinesForked := true }) ∧
    loopBody sortSort { sleepers := [], now := 1, ntogo := 1, goroutinesForked := true }
        (.requestSleep maxInt64 1) =
      ([], .panic "waking in the past") ∧
    ¬ ((2 : Int) < 1) ∧
    loopFrom sortSort LoopState.init
        [.requestGo, .requestSleep 1 0, .requestGo, .requestSleep maxInt64 1] =
      ([Action.wake 0],
        .running { sleepers := [{ wake := -(2 ^ 63), resp := 1 }], now := 1, ntogo := 2,
                   goroutinesForked := true }) ∧
    loopBody sortSort
        { sleepers := [{ wake := -(2 ^ 63), resp := 1 }], now := 1, ntogo := 2,
          goroutinesForked := true } .requestDie =
      ([], .panic "waking in the past") := by
  refine ⟨by decide, by decide, by decide, by decide, by decide, by decide⟩

/-! ## `inject` -/

/-- C11: `writeCCID` attaches options without looking at the type of the packet.
The sample header has type 2 (Data); the receiver's congestion control hands
back the feedback option 194, which passes the check of its direction and which
the sample table does not allow on a packet of that type; `writeCCID` returns
the header with the option attached and does not panic. -/
theorem writeCCID_attaches_option_illegal_for_type :
    ∃ c2 h2, Conn.writeCCID sampleControls (validateCCIDSenderToReceiver sampleDir)
        (validateCCIDReceiverToSender sampleDir)
        { scc := 21, rcc := (), calls := [] } sampleHeader = .ok (c2, h2) ∧
      h2.Type' = 2 ∧
      ({ Type' := 194, Data := [1] } : DccpOption) ∈ h2.Options ∧
      sampleLegalOn h2.Type' { Type' := 194, Data := [1] } = false :=
  ⟨_, _, writeCCID_eq_ok sampleControls _ _ { scc := 21, rcc := (), calls := [] }
    sampleHeader (by decide) (by decide), rfl, by decide, by decide⟩

/-- C12: `inject` with `writeNonData` taken as a bounded queue. With a `nil`
channel nothing changes. With a full queue (as many headers as the capacity, or
more) nothing changes either: the queue, the header and the connection, on which
no `OnWrite` has been called, are as before. Otherwise one element goes to the
tail of the queue and nothing else of the queue changes: `nil` for a `nil` header
and the header returned by `writeCCID` for any other (a panic of `writeCCID` is
a panic of `inject`); a queue within its capacity stays within it. -/
theorem inject_bounded_queue {σ ρ : Type} (cc : CongestionControls σ ρ)
    (validS validR : List DccpOption → Bool) (c : InjectConn σ ρ) (h : Option Header) :
    (c.writeNonData = none → Conn.inject cc validS validR c h = .ok (c, h)) ∧
    (∀ q, c.writeNonData = some q → q.cap ≤ q.buf.length →
      Conn.inject cc validS validR c h = .ok (c, h)) ∧
    (∀ q, c.writeNonData = some q → q.buf.length < q.cap → h = none →
      Conn.inject cc validS validR c h =
        .ok ({ c with writeNonData := some { q with buf := q.buf ++ [none] } }, none)) ∧
    (∀ q hdr, c.writeNonData = some q → q.buf.length < q.cap → h = some hdr →
      (∀ c2 h2, Conn.writeCCID cc validS validR c.conn hdr = .ok (c2, h2) →
        Conn.inject cc validS validR c h =
          .ok ({ conn := c2, writeNonData := some { q with buf := q.buf ++ [some h2] } },
               some h2)) ∧
      (∀ msg, Conn.writeCCID cc validS validR c.conn hdr = .error msg →
        Conn.inject cc validS validR c h = .error msg)) ∧
    (∀ q r, c.writeNonData = some q → q.buf.length ≤ q.cap →
      Conn.inject cc validS validR c h = .ok r →
      ∃ q2, r.1.writeNonData = some q2 ∧ q2.cap = q.cap ∧ q2.buf.length ≤ q2.cap ∧
        (q2.buf = q.buf ∨ ∃ x, q2.buf = q.buf ++ [x])) := by
  refine ⟨?_, ?_, ?_, ?_, ?_⟩
  · intro hq
    simp [Conn.inject, hq]
  · intro q hq hfull
    simp only [Conn.inject, hq]
    rw [if_neg (by omega)]
  · intro q hq hlt hh
    subst hh
    simp only [Conn.inject, hq]
    rw [if_pos hlt]
  · intro q hdr hq hlt hh
    subst hh
    refine ⟨?_, ?_⟩
    · intro c2 h2 hw
      simp only [Conn.inject, hq]
      rw [if_pos hlt]
      simp only [hw]
    · intro msg hw
      simp only [Conn.inject, hq]
      rw [if_pos hlt]
      simp only [hw]
  · intro q r hq hle hr
    simp only [Conn.inject, hq] at hr
    by_cases hlt : q.buf.length < q.cap
    · rw [if_pos hlt] at hr
      cases h with
      | none =>
        simp only [Except.ok.injEq] at hr
        subst hr
        exact ⟨_, rfl, rfl, by simp only [List.length_append, List.length_singleton]; omega,
          Or.inr ⟨_, rfl⟩⟩
      | some hdr =>
        simp only at hr
        cases hw : Conn.writeCCID cc validS validR c.conn hdr with
        | error msg => simp [hw] at hr
        | ok p =>
          obtain ⟨c2, h2⟩ := p
          simp only [hw, Except.ok.injEq] at hr
          subst hr
          exact ⟨_, rfl, rfl, by simp only [List.length_append, List.length_singleton]; omega,
            Or.inr ⟨_, rfl⟩⟩
    · rw [if_neg hlt] at hr
      simp only [Except.ok.injEq] at hr
      subst hr
      exact ⟨q, hq, rfl, hle, Or.inl rfl⟩

theorem inject_bounded_queue_witness :
    Conn.inject sampleControls (validateCCIDSenderToReceiver sampleDir)
        (validateCCIDReceiverToSender sampleDir) sampleFull (some sampleHeader) =
      .ok (sampleFull, some sampleHeader) :=
  (inject_bounded_queue sampleControls (validateCCIDSenderToReceiver sampleDir)
    (validateCCIDReceiverToSender sampleDir) sampleFull (some sampleHeader)).2.1
    { buf := [some sampleHeader, none], cap := 2 } rfl (by decide)

/-- C19, as the code has it: when the channel can hold at least one header, a
`nil` passed to `inject` is left out of the queue only while the queue holds at
least one element (in fact as many as its capacity). -/
theorem nil_dropped_only_behind_packets {σ ρ : Type} (cc : CongestionControls σ ρ)
    (validS validR : List DccpOption → Bool) (c : InjectConn σ ρ) (q : NonDataQueue)
    (r : InjectConn σ ρ × Option Header)
    (hq : c.writeNonData = some q) (hcap : 1 ≤ q.cap)
    (hres : Conn.inject cc validS validR c none = .ok r)
    (hdrop : r.1.writeNonData = some q) :
    q.buf ≠ [] ∧ q.cap ≤ q.buf.length := by
  simp only [Conn.inject, hq] at hres
  by_cases hlt : q.buf.length < q.cap
  · rw [if_pos hlt] at hres
    simp only [Except.ok.injEq] at hres
    subst hres
    simp only [Option.some.injEq] at hdrop
    have := congrArg (fun x => x.buf.length) hdrop
    simp at this
  · refine ⟨?_, by omega⟩
    intro he
    rw [he] at hlt
    simp at hlt
    omega

theorem nil_dropped_only_behind_packets_witness :
    ([some sampleHeader] : List (Option Header)) ≠ [] ∧ 1 ≤ [some sampleHeader].length :=
  nil_dropped_only_behind_packets sampleControls (validateCCIDSenderToReceiver sampleDir)
    (validateCCIDReceiverToSender sampleDir)
    { conn := { scc := 0, rcc := (), calls := [] },
      writeNonData := some { buf := [some sampleHeader], cap := 1 } }
    { buf := [some sampleHeader], cap := 1 }
    ({ conn := { scc := 0, rcc := (), calls := [] },
       writeNonData := some { buf := [some sampleHeader], cap := 1 } }, none)
    rfl (by decide) rfl rfl

/-- C19, as stated, fails for a channel without buffer: its capacity is 0, so
`inject(nil)` leaves the `nil` out although the queue holds nothing. -/
theorem nil_dropped_from_empty_unbuffered_queue :
    ∃ r, Conn.inject sampleControls (validateCCIDSenderToReceiver sampleDir)
        (validateCCIDReceiverToSender sampleDir)
        { conn := { scc := 0, rcc := (), calls := [] },
          writeNonData := some { buf := [], cap := 0 } } none = .ok r ∧
      r.1.writeNonData = some { buf := [], cap := 0 } ∧
      ({ buf := [], cap := 0 } : NonDataQueue).buf = [] :=
  ⟨_, rfl, rfl, rfl⟩

/-! ## `writeLoop` -/

theorem writeOrAbort_shape {σ ρ : Type} (strobe : σ → σ) (c : Conn σ ρ) (h : Option Header)
    (err : Bool) :
    (h = none ∧ writeOrAbort strobe c h err = (c, false)) ∨
    (∃ hdr, h = some hdr ∧ err = false ∧
      writeOrAbort strobe c h err =
        ({ c with scc := strobe c.scc,
                  calls := c.calls ++ [Call.sccStrobe, Call.hcWriteHeader hdr] }, false)) ∨
    (∃ hdr, h = some hdr ∧ err = true ∧
      writeOrAbort strobe c h err =
        ({ c with scc := strobe c.scc,
                  calls := c.calls ++ [Call.sccStrobe, Call.hcWriteHeader hdr] ++
                    [Call.abortQuietly] }, true)) := by
  cases h with
  | none => left; exact ⟨rfl, rfl⟩
  | some hdr =>
    cases err with
    | false => right; left; exact ⟨hdr, rfl, rfl, rfl⟩
    | true => right; right; exact ⟨hdr, rfl, rfl, rfl⟩

theorem Label.Forward_refl (p : Label) : Label.Forward p p :=
  ⟨le_refl _, fun h => by rw [h.1] at h; cases h.2⟩

theorem writeLoopPass_forward {σ ρ : Type} (cc : CongestionControls σ ρ)
    (validS validR : List DccpOption → Bool) (strobe : σ → σ)
    (s s2 : WriteLoopState σ ρ) (env : PassEnv)
    (h : writeLoopPass cc validS validR strobe s env = .next s2) :
    Label.Forward s.label s2.label ∧ (s.label ≠ .Loop_II → s2.writeData = s.writeData) := by
  unfold writeLoopPass at h
  cases hl : s.label <;> rw [hl] at h <;> simp only at h
  all_goals (repeat' (split at h))
  all_goals (try cases h)
  all_goals simp [Label.Forward, Label.rank]

theorem writeLoopLabels_forward {σ ρ : Type} (cc : CongestionControls σ ρ)
    (validS validR : List DccpOption → Bool) (strobe : σ → σ)
    (envs : List (Arrival × PassEnv)) :
    ∀ s : WriteLoopState σ ρ,
      (s.label :: writeLoopLabels cc validS validR strobe s envs).Chain' Label.Forward := by
  induction envs with
  | nil => intro s; simp [writeLoopLabels]
  | cons e rest ih =>
    intro s
    obtain ⟨a, env⟩ := e
    simp only [writeLoopLabels]
    cases hp : writeLoopPass cc validS validR strobe (s.arrive a) env with
    | blocked =>
      simp only
      rw [List.chain'_cons]
      exact ⟨Label.Forward_refl _, ih (s.arrive a)⟩
    | finished => simp
    | next s2 =>
      simp only
      rw [List.chain'_cons]
      exact ⟨(writeLoopPass_forward cc validS validR strobe (s.arrive a) s2 env hp).1, ih s2⟩
    | panic msg => simp

theorem loopIISelect_nonData (pick : Nat) (nd0 : Chan (Option Header)) (d0 : Chan (List Nat))
    (h : Option Header) (ok : Bool) (nd : Chan (Option Header)) (d : Chan (List Nat))
    (hsel : loopIISelect pick nd0 d0 = some (.nonData h ok, nd, d)) :
    d = d0 ∧ ∃ x, nd0.recv = some (x, ok, nd) ∧ h = x.getD none := by
  unfold loopIISelect at hsel
  split at hsel
  · split at hsel
    · rename_i x ok2 ch hr
      simp only [Option.some.injEq, Prod.mk.injEq, Selected.nonData.injEq] at hsel
      obtain ⟨⟨h1, h2⟩, h3, h4⟩ := hsel
      subst h2 h3 h4
      exact ⟨rfl, x, hr, h1.symm⟩
    · cases hsel
  · split at hsel
    · simp at hsel
    · cases hsel
  · cases hsel

theorem loopIISelect_appData (pick : Nat) (nd0 : Chan (Option Header)) (d0 : Chan (List Nat))
    (data : List Nat) (ok : Bool) (nd : Chan (Option Header)) (d : Chan (List Nat))
    (hsel : loopIISelect pick nd0 d0 = some (.appData data ok, nd, d)) :
    nd = nd0 ∧ ∃ x, d0.recv = some (x, ok, d) ∧ data = x.getD [] := by
  unfold loopIISelect at hsel
  split at hsel
  · split at hsel
    · simp at hsel
    · cases hsel
  · split at hsel
    · rename_i x ok2 ch hr
      simp only [Option.some.injEq, Prod.mk.injEq, Selected.appData.injEq] at hsel
      obtain ⟨⟨h1, h2⟩, h3, h4⟩ := hsel
      subst h2 h3 h4
      exact ⟨rfl, x, hr, h1.symm⟩
    · cases hsel
  · cases hsel

theorem Chan.recv_closed {α : Type} (ch ch2 : Chan α) (x : Option α)
    (h : ch.recv = some (x, false, ch2)) :
    ch.buf = [] ∧ ch.closed = true ∧ ch2 = ch ∧ x = none := by
  unfold Chan.recv at h
  split at h
  · simp at h
  · rename_i hb
    split at h
    · rename_i hc
      simp only [Option.some.injEq, Prod.mk.injEq, true_and] at h
      exact ⟨hb, hc, h.2.symm, h.1.symm⟩
    · cases h

/-- C13: `writeLoop` goes through its loops forward only. In a pass the label
stays or moves to a later one, never from `Loop_I` straight to `Loop_III`; so
does the whole sequence of labels of any series of passes, whatever arrives on
the channels in between. A pass started at `Loop_I` or at `Loop_III` leaves
`writeData` as it found it: a payload is taken from `writeData` only in a pass
started at `Loop_II`. -/
theorem writeLoop_phases_only_forward {σ ρ : Type} (cc : CongestionControls σ ρ)
    (validS validR : List DccpOption → Bool) (strobe : σ → σ)
    (s : WriteLoopState σ ρ) (env : PassEnv) (envs : List (Arrival × PassEnv)) :
    (∀ s2, writeLoopPass cc validS validR strobe s env = .next s2 →
      Label.Forward s.label s2.label ∧
      (s.label ≠ .Loop_II → s2.writeData = s.writeData) ∧
      (s2.writeData ≠ s.writeData → s.label = .Loop_II)) ∧
    (s.label :: writeLoopLabels cc validS validR strobe s envs).Chain' Label.Forward ∧
    (s.label = .Exit → writeLoopPass cc validS validR strobe s env = .finished) := by
  refine ⟨?_, writeLoopLabels_forward cc validS validR strobe envs s, ?_⟩
  · intro s2 h
    obtain ⟨h1, h2⟩ := writeLoopPass_forward cc validS validR strobe s s2 env h
    refine ⟨h1, h2, ?_⟩
    intro hne
    by_contra hl
    exact hne (h2 hl)
  · intro hl
    simp [writeLoopPass, hl]

theorem writeLoop_phases_only_forward_witness :
    (sampleWaking.label ::
      writeLoopLabels sampleControls (validateCCIDSenderToReceiver sampleDir)
        (validateCCIDReceiverToSender sampleDir) id sampleWaking
        [({ nonData := [], closeNonData := false, data := [], closeData := false },
          sampleFailingEnv),
         ({ nonData := [], closeNonData := false, data := [], closeData := true },
          sampleFailingEnv)]).Chain' Label.Forward :=
  (writeLoop_phases_only_forward sampleControls (validateCCIDSenderToReceiver sampleDir)
    (validateCCIDReceiverToSender sampleDir) id sampleWaking sampleFailingEnv _).2.1

/-- C14: a `nil` header received from `writeNonData` only wakes the loop up.
In each of the three loops the pass leaves the connection as it was (no call of
`Strobe`, of `WriteHeader` or of anything else is made) and takes nothing from
`writeData`. In `Loop_I` the state of the socket is read all the same, and the
next pass starts at `Loop_II` exactly when that state is `OPEN` or `PARTOPEN`,
at `Loop_I` otherwise; in `Loop_II` and `Loop_III` the loop goes on where it
is. -/
theorem nil_header_only_wakes_loop {σ ρ : Type} (cc : CongestionControls σ ρ)
    (validS validR : List DccpOption → Bool) (strobe : σ → σ)
    (s : WriteLoopState σ ρ) (env : PassEnv) :
    (s.label = .Loop_I → ∀ ch, s.writeNonData.recv = some (some none, true, ch) →
      ∃ s2, writeLoopPass cc validS validR strobe s env = .next s2 ∧
        s2.conn = s.conn ∧ s2.writeNonData = ch ∧ s2.writeData = s.writeData ∧
        (s2.label = .Loop_II ↔ (env.state = .OPEN ∨ env.state = .PARTOPEN)) ∧
        (s2.label = .Loop_I ↔ ¬ (env.state = .OPEN ∨ env.state = .PARTOPEN))) ∧
    (s.label = .Loop_II → ∀ nd d,
      loopIISelect env.pick s.writeNonData s.writeData = some (.nonData none true, nd, d) →
      ∃ s2, writeLoopPass cc validS validR strobe s env = .next s2 ∧
        s2.conn = s.conn ∧ s2.writeNonData = nd ∧ s2.writeData = d ∧
        d = s.writeData ∧ s2.label = .Loop_II) ∧
    (s.label = .Loop_III → ∀ ch, s.writeNonData.recv = some (some none, true, ch) →
      ∃ s2, writeLoopPass cc validS validR strobe s env = .next s2 ∧
        s2.conn = s.conn ∧ s2.writeNonData = ch ∧ s2.writeData = s.writeData ∧
        s2.label = .Loop_III) := by
  refine ⟨?_, ?_, ?_⟩
  · intro hl ch hr
    cases hst : env.state <;>
      simp [writeLoopPass, hl, hr, writeOrAbort, hst]
  · intro hl nd d hsel
    refine ⟨{ s with writeNonData := nd, writeData := d }, ?_, rfl, rfl, rfl,
      (loopIISelect_nonData _ _ _ _ _ _ _ hsel).1, hl⟩
    simp [writeLoopPass, hl, hsel, writeOrAbort]
  · intro hl ch hr
    simp [writeLoopPass, hl, hr, writeOrAbort]

theorem nil_header_only_wakes_loop_witness :
    ∃ s2, writeLoopPass sampleControls (validateCCIDSenderToReceiver sampleDir)
        (validateCCIDReceiverToSender sampleDir) id sampleWaking sampleFailingEnv = .next s2 ∧
      s2.conn = sampleWaking.conn ∧
      s2.writeNonData = { buf := [], closed := false } ∧
      s2.writeData = sampleWaking.writeData ∧
      (s2.label = .Loop_II ↔
        (sampleFailingEnv.state = .OPEN ∨ sampleFailingEnv.state = .PARTOPEN)) ∧
      (s2.label = .Loop_I ↔
        ¬ (sampleFailingEnv.state = .OPEN ∨ sampleFailingEnv.state = .PARTOPEN)) :=
  (nil_header_only_wakes_loop sampleControls (validateCCIDSenderToReceiver sampleDir)
    (validateCCIDReceiverToSender sampleDir) id sampleWaking sampleFailingEnv).1 rfl
    { buf := [], closed := false } rfl

/-- C15: `writeLoop` sends until `writeNonData` is closed. In each of the three
loops a receive that finds `writeNonData` closed (and drained) sends the loop to
`Exit` with the connection untouched (no `Strobe`, no write) and both channels
as they were, and at `Exit` nothing is done any more. A pass reaches `Exit` for
no other reason than this one or a transport error, after which `abortQuietly`
is the last call. A closed `writeData` found by the `select` of `Loop_II` moves
the loop to `Loop_III` and does not end it. -/
theorem writeLoop_ends_when_nonData_closed {σ ρ : Type} (cc : CongestionControls σ ρ)
    (validS validR : List DccpOption → Bool) (strobe : σ → σ)
    (s : WriteLoopState σ ρ) (env : PassEnv) :
    ((s.label = .Loop_I ∨ s.label = .Loop_III) →
      s.writeNonData.buf = [] → s.writeNonData.closed = true →
      writeLoopPass cc validS validR strobe s env = .next { s with label := .Exit }) ∧
    (s.label = .Loop_II → ∀ h nd d,
      loopIISelect env.pick s.writeNonData s.writeData = some (.nonData h false, nd, d) →
      s.writeNonData.buf = [] ∧ s.writeNonData.closed = true ∧
        writeLoopPass cc validS validR strobe s env = .next { s with label := .Exit }) ∧
    (s.label = .Exit → writeLoopPass cc validS validR strobe s env = .finished) ∧
    (∀ s2, writeLoopPass cc validS validR strobe s env = .next s2 → s2.label = .Exit →
      (s.writeNonData.buf = [] ∧ s.writeNonData.closed = true ∧ s2.conn = s.conn) ∨
      (env.writeErr = true ∧ s2.conn.calls.getLast? = some Call.abortQuietly)) ∧
    (s.label = .Loop_II → ∀ data nd d,
      loopIISelect env.pick s.writeNonData s.writeData = some (.appData data false, nd, d) →
      writeLoopPass cc validS validR strobe s env = .next { s with label := .Loop_III }) := by
  refine ⟨?_, ?_, ?_, ?_, ?_⟩
  · intro hl hb hc
    have hr : s.writeNonData.recv = some (none, false, s.writeNonData) := by
      simp [Chan.recv, hb, hc]
    rcases hl with hl | hl <;> simp [writeLoopPass, hl, hr]
  · intro hl h nd d hsel
    obtain ⟨hd, x, hr, -⟩ := loopIISelect_nonData _ _ _ _ _ _ _ hsel
    obtain ⟨hb, hc, hch, -⟩ := Chan.recv_closed _ _ _ hr
    subst hd hch
    refine ⟨hb, hc, ?_⟩
    simp [writeLoopPass, hl, hsel]
  · intro hl
    simp [writeLoopPass, hl]
  · intro s2 hp hexit
    unfold writeLoopPass at hp
    cases hl : s.label <;> rw [hl] at hp <;> simp only at hp
    · -- Loop_I
      split at hp
      · cases hp
      · rename_i x ok ch hr
        cases ok with
        | false =>
          obtain ⟨hb, hc, -, -⟩ := Chan.recv_closed _ _ _ hr
          simp only [Bool.not_false, if_true, PassResult.next.injEq] at hp
          subst hp
          exact Or.inl ⟨hb, hc, rfl⟩
        | true =>
          simp only [Bool.not_true, Bool.false_eq_true, if_false] at hp
          rcases writeOrAbort_shape strobe s.conn (x.getD none) env.writeErr with
            ⟨-, hw⟩ | ⟨hdr, -, -, hw⟩ | ⟨hdr, -, he, hw⟩
          · rw [hw] at hp
            simp only [Bool.false_eq_true, if_false] at hp
            split at hp <;> (cases hp; simp at hexit)
          · rw [hw] at hp
            simp only [Bool.false_eq_true, if_false] at hp
            split at hp <;> (cases hp; simp at hexit)
          · rw [hw] at hp
            simp only [if_true, PassResult.next.injEq] at hp
            subst hp
            exact Or.inr ⟨he, by simp⟩
    · -- Loop_II
      split at hp
      · cases hp
      · rename_i h ok nd d hsel
        obtain ⟨hd, x, hr, -⟩ := loopIISelect_nonData _ _ _ _ _ _ _ hsel
        cases ok with
        | false =>
          obtain ⟨hb, hc, -, -⟩ := Chan.recv_closed _ _ _ hr
          simp only [Bool.not_false, if_true, PassResult.next.injEq] at hp
          subst hp
          exact Or.inl ⟨hb, hc, rfl⟩
        | true =>
          simp only [Bool.not_true, Bool.false_eq_true, if_false, PassResult.next.injEq] at hp
          subst hp
          rcases writeOrAbort_shape strobe s.conn h env.writeErr with
            ⟨-, hw⟩ | ⟨hdr, -, -, hw⟩ | ⟨hdr, -, he, hw⟩
          · simp [hw] at hexit
          · simp [hw] at hexit
          · exact Or.inr ⟨he, by simp [hw]⟩
      · rename_i data ok nd d hsel
        cases ok with
        | false =>
          simp only [Bool.not_false, if_true, PassResult.next.injEq] at hp
          subst hp
          simp at hexit
        | true =>
          simp only [Bool.not_true, Bool.false_eq_true, if_false] at hp
          split at hp
          · cases hp
          · rename_i c2 h2 hw2
            simp only [PassResult.next.injEq] at hp
            subst hp
            rcases writeOrAbort_shape strobe c2 (some h2) env.writeErr with
              ⟨hn, -⟩ | ⟨hdr, -, -, hw⟩ | ⟨hdr, -, he, hw⟩
            · cases hn
            · simp [hw] at hexit
            · exact Or.inr ⟨he, by simp [hw]⟩
    · -- Loop_III
      split at hp
      · cases hp
      · rename_i x ok ch hr
        cases ok with
        | false =>
          obtain ⟨hb, hc, -, -⟩ := Chan.recv_closed _ _ _ hr
          simp only [Bool.not_false, if_true, PassResult.next.injEq] at hp
          subst hp
          exact Or.inl ⟨hb, hc, rfl⟩
        | true =>
          simp only [Bool.not_true, Bool.false_eq_true, if_false, PassResult.next.injEq] at hp
          subst hp
          rcases writeOrAbort_shape strobe s.conn (x.getD none) env.writeErr with
            ⟨-, hw⟩ | ⟨hdr, -, -, hw⟩ | ⟨hdr, -, he, hw⟩
          · simp [hw] at hexit
          · simp [hw] at hexit
          · exact Or.inr ⟨he, by simp [hw]⟩
    · cases hp
  · intro hl data nd d hsel
    obtain ⟨hnd, x, hr, -⟩ := loopIISelect_appData _ _ _ _ _ _ _ hsel
    obtain ⟨-, -, hch, -⟩ := Chan.recv_closed _ _ _ hr
    subst hnd hch
    simp [writeLoopPass, hl, hsel]

theorem writeLoop_ends_when_nonData_closed_witness :
    writeLoopPass sampleControls (validateCCIDSenderToReceiver sampleDir)
        (validateCCIDReceiverToSender sampleDir) id sampleDrained sampleFailingEnv =
      .next { sampleDrained with label := .Exit } :=
  (writeLoop_ends_when_nonData_closed sampleControls (validateCCIDSenderToReceiver sampleDir)
    (validateCCIDReceiverToSender sampleDir) id sampleDrained sampleFailingEnv).1
    (Or.inr rfl) rfl rfl

theorem writeCCID_ok_calls {σ ρ : Type} (cc : CongestionControls σ ρ)
    (validS validR : List DccpOption → Bool) (c c2 : Conn σ ρ) (h h2 : Header)
    (hok : Conn.writeCCID cc validS validR c h = .ok (c2, h2)) :
    c2.calls = c.calls ++
      [Call.sccOnWrite h.Type' h.X h.SeqNo, Call.rccOnWrite h.Type' h.X h.SeqNo] := by
  simp only [Conn.writeCCID] at hok
  split at hok
  · cases hok
  · split at hok
    · cases hok
    · injection hok with hok
      injection hok with hc _
      subst hc
      simp

/-- C16: what a pass that does not panic adds to the calls of the connection.
Either nothing: no header was written. Or, after the two `OnWrite` calls of
`writeCCID` when the header carries a payload, `Strobe` and then `WriteHeader`:
when the transport write succeeds that is all, `abortQuietly` is not called and
the loop goes on; when it returns an error, `abortQuietly` follows, exactly once,
the loop is at `Exit`, and nothing is received, written or called after that. -/
theorem transport_error_aborts_once {σ ρ : Type} (cc : CongestionControls σ ρ)
    (validS validR : List DccpOption → Bool) (strobe : σ → σ)
    (s s2 : WriteLoopState σ ρ) (env : PassEnv)
    (hp : writeLoopPass cc validS validR strobe s env = .next s2) :
    ∃ pre, (pre = [] ∨ ∃ t x n, pre = [Call.sccOnWrite t x n, Call.rccOnWrite t x n]) ∧
      ((pre = [] ∧ s2.conn.calls = s.conn.calls) ∨
       (∃ h, env.writeErr = false ∧
          s2.conn.calls = s.conn.calls ++ pre ++ [Call.sccStrobe, Call.hcWriteHeader h] ∧
          Call.abortQuietly ∉ pre ++ [Call.sccStrobe, Call.hcWriteHeader h] ∧
          s2.label ≠ .Exit) ∨
       (∃ h, env.writeErr = true ∧
          s2.conn.calls = s.conn.calls ++ pre ++
            [Call.sccStrobe, Call.hcWriteHeader h, Call.abortQuietly] ∧
          (pre ++ [Call.sccStrobe, Call.hcWriteHeader h, Call.abortQuietly]).count
            Call.abortQuietly = 1 ∧
          s2.label = .Exit ∧
          ∀ env2, writeLoopPass cc validS validR strobe s2 env2 = .finished)) := by
  have tail : ∀ (c : Conn σ ρ) (h : Option Header) (pre : List Call) (l : Label)
      (nd : Chan (Option Header)) (d : Chan (List Nat)),
      l ≠ .Exit → c.calls = s.conn.calls ++ pre →
      (pre = [] ∨ (h ≠ none ∧ ∃ t x n, pre = [Call.sccOnWrite t x n, Call.rccOnWrite t x n])) →
      s2 = { label := if (writeOrAbort strobe c h env.writeErr).2 then .Exit else l,
             conn := (writeOrAbort strobe c h env.writeErr).1,
             writeNonData := nd, writeData := d } →
      ∃ pre, (pre = [] ∨ ∃ t x n, pre = [Call.sccOnWrite t x n, Call.rccOnWrite t x n]) ∧
        ((pre = [] ∧ s2.conn.calls = s.conn.calls) ∨
         (∃ h, env.writeErr = false ∧
            s2.conn.calls = s.conn.calls ++ pre ++ [Call.sccStrobe, Call.hcWriteHeader h] ∧
            Call.abortQuietly ∉ pre ++ [Call.sccStrobe, Call.hcWriteHeader h] ∧
            s2.label ≠ .Exit) ∨
         (∃ h, env.writeErr = true ∧
            s2.conn.calls = s.conn.calls ++ pre ++
              [Call.sccStrobe, Call.hcWriteHeader h, Call.abortQuietly] ∧
            (pre ++ [Call.sccStrobe, Call.hcWriteHeader h, Call.abortQuietly]).count
              Call.abortQuietly = 1 ∧
            s2.label = .Exit ∧
            ∀ env2, writeLoopPass cc validS validR strobe s2 env2 = .finished)) := by
    intro c h pre l nd d hl hc hpre hs2
    rcases writeOrAbort_shape strobe c h env.writeErr with
      ⟨hn, hw⟩ | ⟨hdr, -, he, hw⟩ | ⟨hdr, -, he, hw⟩
    · have hpre0 : pre = [] := by
        rcases hpre with hpre | ⟨hne, -⟩
        · exact hpre
        · exact absurd hn hne
      subst hpre0
      refine ⟨[], Or.inl rfl, Or.inl ⟨rfl, ?_⟩⟩
      rw [hs2, hw]
      simpa using hc
    · refine ⟨pre, ?_, Or.inr (Or.inl ⟨hdr, he, ?_, ?_, ?_⟩)⟩
      · rcases hpre with hpre | ⟨-, hpre⟩
        · exact Or.inl hpre
        · exact Or.inr hpre
      · rw [hs2, hw]
        simp [hc]
      · rcases hpre with hpre | ⟨-, t, x, n, hpre⟩ <;> subst hpre <;> simp
      · rw [hs2, hw]
        simpa using hl
    · refine ⟨pre, ?_, Or.inr (Or.inr ⟨hdr, he, ?_, ?_, ?_, ?_⟩)⟩
      · rcases hpre with hpre | ⟨-, hpre⟩
        · exact Or.inl hpre
        · exact Or.inr hpre
      · rw [hs2, hw]
        simp [hc]
      · rcases hpre with hpre | ⟨-, t, x, n, hpre⟩ <;> subst hpre <;> simp
      · rw [hs2, hw]
        simp
      · intro env2
        rw [hs2, hw]
        simp [writeLoopPass]
  have plain : ∀ (l : Label) (nd : Chan (Option Header)) (d : Chan (List Nat)),
      s2 = { label := l, conn := s.conn, writeNonData := nd, writeData := d } →
      ∃ pre, (pre = [] ∨ ∃ t x n, pre = [Call.sccOnWrite t x n, Call.rccOnWrite t x n]) ∧
        ((pre = [] ∧ s2.conn.calls = s.conn.calls) ∨
         (∃ h, env.writeErr = false ∧
            s2.conn.calls = s.conn.calls ++ pre ++ [Call.sccStrobe, Call.hcWriteHeader h] ∧
            Call.abortQuietly ∉ pre ++ [Call.sccStrobe, Call.hcWriteHeader h] ∧
            s2.label ≠ .Exit) ∨
         (∃ h, env.writeErr = true ∧
            s2.conn.calls = s.conn.calls ++ pre ++
              [Call.sccStrobe, Call.hcWriteHeader h, Call.abortQuietly] ∧
            (pre ++ [Call.sccStrobe, Call.hcWriteHeader h, Call.abortQuietly]).count
              Call.abortQuietly = 1 ∧
            s2.label = .Exit ∧
            ∀ env2, writeLoopPass cc validS validR strobe s2 env2 = .finished)) := by
    intro l nd d hs2
    exact ⟨[], Or.inl rfl, Or.inl ⟨rfl, by rw [hs2]⟩⟩
  unfold writeLoopPass at hp
  cases hl : s.label <;> rw [hl] at hp <;> simp only at hp
  · -- Loop_I
    split at hp
    · cases hp
    · rename_i x ok ch hr
      cases ok with
      | false =>
        simp only [Bool.not_false, if_true, PassResult.next.injEq] at hp
        exact plain _ _ _ hp.symm
      | true =>
        simp only [Bool.not_true, Bool.false_eq_true, if_false] at hp
        by_cases hw : (writeOrAbort strobe s.conn (x.getD none) env.writeErr).2 = true
        · rw [if_pos hw] at hp
          simp only [PassResult.next.injEq] at hp
          exact tail s.conn (x.getD none) [] .Loop_I ch s.writeData (by simp) (by simp)
            (Or.inl rfl) (by rw [if_pos hw]; exact hp.symm)
        · rw [if_neg hw] at hp
          split at hp
          · simp only [PassResult.next.injEq] at hp
            exact tail s.conn (x.getD none) [] .Loop_II ch s.writeData (by simp) (by simp)
              (Or.inl rfl) (by rw [if_neg hw]; exact hp.symm)
          · simp only [PassResult.next.injEq] at hp
            exact tail s.conn (x.getD none) [] .Loop_II ch s.writeData (by simp) (by simp)
              (Or.inl rfl) (by rw [if_neg hw]; exact hp.symm)
          · simp only [PassResult.next.injEq] at hp
            exact tail s.conn (x.getD none) [] .Loop_I ch s.writeData (by simp) (by simp)
              (Or.inl rfl) (by rw [if_neg hw]; exact hp.symm)
  · -- Loop_II
    split at hp
    · cases hp
    · rename_i h ok nd d hsel
      cases ok with
      | false =>
        simp only [Bool.not_false, if_true, PassResult.next.injEq] at hp
        exact plain _ _ _ hp.symm
      | true =>
        simp only [Bool.not_true, Bool.false_eq_true, if_false, PassResult.next.injEq] at hp
        exact tail s.conn h [] .Loop_II nd d (by simp) (by simp) (Or.inl rfl) hp.symm
    · rename_i data ok nd d hsel
      cases ok with
      | false =>
        simp only [Bool.not_false, if_true, PassResult.next.injEq] at hp
        exact plain _ _ _ hp.symm
      | true =>
        simp only [Bool.not_true, Bool.false_eq_true, if_false] at hp
        split at hp
        · cases hp
        · rename_i c2 h2 hw2
          simp only [PassResult.next.injEq] at hp
          exact tail c2 (some h2) _ .Loop_II nd d (by simp)
            (writeCCID_ok_calls cc validS validR s.conn c2 _ h2 hw2)
            (Or.inr ⟨by simp, _, _, _, rfl⟩) hp.symm
  · -- Loop_III
    split at hp
    · cases hp
    · rename_i x ok ch hr
      cases ok with
      | false =>
        simp only [Bool.not_false, if_true, PassResult.next.injEq] at hp
        exact plain _ _ _ hp.symm
      | true =>
        simp only [Bool.not_true, Bool.false_eq_true, if_false, PassResult.next.injEq] at hp
        exact tail s.conn (x.getD none) [] .Loop_III ch s.writeData (by simp) (by simp)
          (Or.inl rfl) hp.symm
  · cases hp

theorem transport_error_aborts_once_witness :
    ∃ pre, (pre = [] ∨ ∃ t x n, pre = [Call.sccOnWrite t x n, Call.rccOnWrite t x n]) ∧
      ((pre = [] ∧ sampleAborted.conn.calls = sampleClosing.conn.calls) ∨
       (∃ h, sampleFailingEnv.writeErr = false ∧
          sampleAborted.conn.calls =
            sampleClosing.conn.calls ++ pre ++ [Call.sccStrobe, Call.hcWriteHeader h] ∧
          Call.abortQuietly ∉ pre ++ [Call.sccStrobe, Call.hcWriteHeader h] ∧
          sampleAborted.label ≠ .Exit) ∨
       (∃ h, sampleFailingEnv.writeErr = true ∧
          sampleAborted.conn.calls = sampleClosing.conn.calls ++ pre ++
            [Call.sccStrobe, Call.hcWriteHeader h, Call.abortQuietly] ∧
          (pre ++ [Call.sccStrobe, Call.hcWriteHeader h, Call.abortQuietly]).count
            Call.abortQuietly = 1 ∧
          sampleAborted.label = .Exit ∧
          ∀ env2, writeLoopPass sampleControls (validateCCIDSenderToReceiver sampleDir)
            (validateCCIDReceiverToSender sampleDir) id sampleAborted env2 = .finished)) :=
  transport_error_aborts_once sampleControls (validateCCIDSenderToReceiver sampleDir)
    (validateCCIDReceiverToSender sampleDir) id sampleClosing sampleAborted sampleFailingEnv rfl

/-! ## The phases of the CCID3 sender -/

theorem sender_run_closed (ops : List ccid3.SenderOp) :
    ∀ s : ccid3.sender, s.phase = ccid3.CLOSED → (s.run ops).phase = ccid3.CLOSED := by
  induction ops with
  | nil => intro s h; exact h
  | cons op ops ih =>
    intro s h
    apply ih
    cases op <;>
      simp [ccid3.sender.apply, ccid3.sender.Open, ccid3.sender.OnRead, ccid3.sender.Close, h,
        ccid3.CLOSED, ccid3.INIT, ccid3.SLOWSTART, ccid3.EQUATION]

/-- C18: `CLOSED` is a terminal phase of the sender. After `Close` the phase is
`CLOSED` and stays `CLOSED` through every sequence of `Open`, `OnWrite`,
`OnRead`, `Strobe`, `OnIdle` and `Close` calls, as it does from any state whose
phase is `CLOSED`; a second `Close` changes nothing, and an `Open` after `Close`
leaves the sender as it is. -/
theorem sender_closed_is_terminal (s : ccid3.sender) (ops : List ccid3.SenderOp) :
    s.Close.phase = ccid3.CLOSED ∧
    (s.Close.run ops).phase = ccid3.CLOSED ∧
    (s.phase = ccid3.CLOSED → (s.run ops).phase = ccid3.CLOSED) ∧
    s.Close.Close = s.Close ∧
    s.Close.Open = s.Close := by
  refine ⟨rfl, sender_run_closed ops _ rfl, sender_run_closed ops s, rfl, ?_⟩
  simp [ccid3.sender.Open, ccid3.sender.Close, ccid3.CLOSED, ccid3.INIT]

end dccp
